import Mathlib

/-!
Verification development for the deduplicating, priority-ordered, chunked
broadcast scheduler of the sagestocks repository.

The definitions below are a shallow embedding of:
  - src/lib/orchestration/orchestrator.ts   (collector, queue builder, execution engine)
  - src/lib/orchestration/queue-storage.ts  (checkpointed queue persistence)
  - src/api/cron/scheduled-analyses.ts      (chunked cron driver)

External collaborators (the Notion API, the analysis call, Redis fetches) are
modelled as explicit oracles threaded through the functions; all JavaScript
string operations (toUpperCase, trim, includes, the retry-after regular
expression) are re-implemented over lists of characters so that every
definition evaluates inside the kernel.
-/

/-! ## String helpers (JavaScript semantics over List Char) -/

/-- Character-wise uppercase of a string, modelling JS `toUpperCase` (ASCII range,
which is what ticker symbols use). -/
def upperStr (s : String) : String := ⟨s.toList.map Char.toUpper⟩

/-- Drop leading and trailing whitespace, modelling JS `trim`. -/
def trimChars (l : List Char) : List Char :=
  ((l.dropWhile Char.isWhitespace).reverse.dropWhile Char.isWhitespace).reverse

/-- Model of `ticker.toUpperCase().trim()` from collectStockRequests
(src/lib/orchestration/orchestrator.ts line 164): the normalized subject key. -/
def normalizeTicker (s : String) : String := ⟨trimChars (upperStr s).toList⟩

/-- Does the character list start with the given literal? (helper for substring search) -/
def startsWithLit : List Char → List Char → Bool
  | [], _ => true
  | _ :: _, [] => false
  | a :: as, b :: bs => a = b && startsWithLit as bs

/-- Does the haystack contain the needle as a contiguous substring?
Models JS `String.prototype.includes`. -/
def hasSubstr : List Char → List Char → Bool
  | [], needle => needle.isEmpty
  | h :: t, needle => startsWithLit needle (h :: t) || hasSubstr t needle

/-- Model of JS `error.includes(pat)`. -/
def strIncludes (s pat : String) : Bool := hasSubstr s.toList pat.toList

/-- JS `a || dflt` on an optional string: `none` and the empty string are falsy. -/
def jsOrStr (a : Option String) (dflt : String) : String :=
  match a with
  | none => dflt
  | some s => if s = "" then dflt else s

/-- JS truthiness of an optional string (`undefined`, `null` and `""` are falsy). -/
def optStrTruthy : Option String → Bool
  | none => false
  | some s => !(s == "")

/-! ## Orchestrator data model (src/lib/orchestration/orchestrator.ts) -/

/-- Subscriber information for a ticker (orchestrator.ts lines 42-52). -/
structure Subscriber where
  userId : String
  email : String
  tier : String
  pageId : String
  accessToken : String
  notionUserId : String
  timezone : String
  stockAnalysesDbId : String
  stockHistoryDbId : String
deriving DecidableEq

/-- Queue item for processing (orchestrator.ts lines 57-62). `requestedAt`
(a JS Date) is modelled by its ISO-string value, which is also its JSON form. -/
structure QueueItem where
  ticker : String
  priority : Nat
  subscribers : List Subscriber
  requestedAt : String
deriving DecidableEq

def dfltSubscriber : Subscriber :=
  { userId := "", email := "", tier := "", pageId := "", accessToken := ""
    notionUserId := "", timezone := "", stockAnalysesDbId := "", stockHistoryDbId := "" }

def dfltQueueItem : QueueItem :=
  { ticker := "", priority := 0, subscribers := [], requestedAt := "" }

instance : Inhabited QueueItem := ⟨dfltQueueItem⟩

/-- The TIER_PRIORITY record (orchestrator.ts lines 32-37): Pro 1, Analyst 2,
Starter 3, Free 4; any other key is absent. -/
def TIER_PRIORITY (tier : String) : Option Nat :=
  if tier = "Pro" then some 1
  else if tier = "Analyst" then some 2
  else if tier = "Starter" then some 3
  else if tier = "Free" then some 4
  else none

/-- Model of `TIER_PRIORITY[s.tier] || 99` (orchestrator.ts line 209): an
unrecognized tier falls back to priority 99. -/
def tierPriorityOrDefault (tier : String) : Nat := (TIER_PRIORITY tier).getD 99

/-- Model of `Math.min(...subscribers.map(s => TIER_PRIORITY[s.tier] || 99))`
(orchestrator.ts lines 208-210). The `[]` case is unreachable: every queue
entry is created with at least one subscriber. -/
def minTierPriority (subs : List Subscriber) : Nat :=
  match subs.map (fun s => tierPriorityOrDefault s.tier) with
  | [] => 0
  | p :: ps => ps.foldl Nat.min p

/-! ## Request collection (collectStockRequests, orchestrator.ts lines 86-191) -/

/-- One page returned by a user's Stock Analyses query: its Notion page id and
the content of its Ticker title property (`""` when the property is empty,
matching the `|| ''` fallback at line 144). -/
structure Page where
  id : String
  ticker : String
deriving DecidableEq

/-- One user, together with the oracle outcomes of the external calls made for
that user during collection: `hasDataSource` models whether the database
retrieve exposes a data source id, `collectError` models a throw anywhere in
the per-user try block (decryptToken / databases.retrieve / dataSources.query
all happen before any subscriber is added, so a throw drops the whole user),
and `pages` is the query result. -/
structure User where
  id : String
  email : String
  accessToken : String
  notionUserId : String
  subscriptionTier : Option String
  timezone : Option String
  stockAnalysesDbId : Option String
  stockHistoryDbId : Option String
  hasDataSource : Bool
  collectError : Bool
  pages : List Page
deriving DecidableEq

/-- The subscriber record pushed for one page (orchestrator.ts lines 171-181),
including the `|| 'Free'`, `|| 'America/Los_Angeles'` and `|| ''` fallbacks. -/
def mkSubscriber (u : User) (p : Page) : Subscriber :=
  { userId := u.id
    email := u.email
    tier := jsOrStr u.subscriptionTier "Free"
    pageId := p.id
    accessToken := u.accessToken
    notionUserId := u.notionUserId
    timezone := jsOrStr u.timezone "America/Los_Angeles"
    stockAnalysesDbId := jsOrStr u.stockAnalysesDbId ""
    stockHistoryDbId := jsOrStr u.stockHistoryDbId "" }

/-- A user contributes subscribers only when it has a configured Stock Analyses
database (line 96), the database exposes a data source (line 109), and no
external call threw (lines 183-186). -/
def userEligible (u : User) : Bool :=
  optStrTruthy u.stockAnalysesDbId && u.hasDataSource && !u.collectError

/-- The ticker map: insertion-ordered association list from normalized subject
key to the subscribers collected for it, modelling the JS `Map` (which
iterates in insertion order). -/
abbrev TickerMap := List (String × List Subscriber)

/-- First-match lookup in the ticker map. -/
def lookupTM : TickerMap → String → List Subscriber
  | [], _ => []
  | e :: rest, k => if e.1 = k then e.2 else lookupTM rest k

/-- Model of `tickerMap.get(k)!.push(sub)` with `tickerMap.set(k, [])` on a
missing key (orchestrator.ts lines 167-181): append the subscriber to the
existing entry, or append a fresh entry at the end. -/
def addSub : TickerMap → String → Subscriber → TickerMap
  | [], k, s => [(k, [s])]
  | e :: rest, k, s =>
      if e.1 = k then (e.1, e.2 ++ [s]) :: rest else e :: addSub rest k s

/-- Collection step for a single user: skipped or failed users contribute
nothing; pages with an empty ticker are skipped (line 146). -/
def collectUserInto (u : User) (m : TickerMap) : TickerMap :=
  if userEligible u then
    u.pages.foldl
      (fun acc p =>
        if p.ticker = "" then acc
        else addSub acc (normalizeTicker p.ticker) (mkSubscriber u p))
      m
  else m

/-- Step 1 of the orchestrator: collect stock requests from all users
(orchestrator.ts lines 86-191). -/
def collectStockRequests (users : List User) : TickerMap :=
  users.foldl (fun m u => collectUserInto u m) []

/-- Specification-side description of the subscribers for one normalized key:
the concatenation, over users in order, of the subscribers arising from that
user's pages that request the key. -/
def perUserRequests (u : User) (key : String) : List Subscriber :=
  if userEligible u then
    (u.pages.filter
        (fun p => !(p.ticker == "") && (normalizeTicker p.ticker == key))).map
      (mkSubscriber u)
  else []

/-- The union (in collection order) of the subscribers of all tenants that
requested the given normalized subject key. -/
def requestsFor (users : List User) (key : String) : List Subscriber :=
  users.flatMap (fun u => perUserRequests u key)

/-! ## Queue builder (buildPriorityQueue, orchestrator.ts lines 199-233) -/

/-- Order used by `queue.sort((a, b) => a.priority - b.priority)`: ascending
priority. JS sort is stable, so ties keep ticker-map insertion order. -/
def queueLE (a b : QueueItem) : Prop := a.priority ≤ b.priority

instance : DecidableRel queueLE :=
  fun a b => inferInstanceAs (Decidable (a.priority ≤ b.priority))

instance : IsTotal QueueItem queueLE :=
  ⟨fun a b => Nat.le_total a.priority b.priority⟩

instance : IsTrans QueueItem queueLE :=
  ⟨fun _ _ _ h h2 => Nat.le_trans h h2⟩

/-- The queue item emitted for one ticker-map entry (orchestrator.ts lines
212-217); `now` stands for the `new Date()` creation timestamp. -/
def entryToItem (now : String) (e : String × List Subscriber) : QueueItem :=
  { ticker := e.1
    priority := minTierPriority e.2
    subscribers := e.2
    requestedAt := now }

/-- The unsorted queue, one item per ticker-map entry in insertion order. -/
def queueEntries (m : TickerMap) (now : String) : List QueueItem :=
  m.map (entryToItem now)

/-- Step 2 of the orchestrator: build the prioritized queue
(orchestrator.ts lines 199-233). The stable ascending sort on `priority`
models `queue.sort((a, b) => a.priority - b.priority)`. -/
def buildPriorityQueue (m : TickerMap) (now : String) : List QueueItem :=
  List.insertionSort queueLE (queueEntries m now)

/-! ## Analysis retry (analyzeWithRetry, orchestrator.ts lines 421-546) -/

/-- The slice of an analysis result the orchestrator inspects: the success
flag, the error text, and whether the result satisfies the required-fields
contract. -/
structure AnalysisResult where
  success : Bool
  error : Option String
  hasRequiredFields : Bool
deriving DecidableEq

/-- Modelled from the spec: `validateAnalysisComplete` lives in
src/lib/domain/stock/analyzer.ts, which is not part of the provided sources.
The spec says the analysis result must satisfy a required-fields contract and
an incomplete result is treated identically to a failure; we model the
contract's verdict as a boolean field of the result. -/
def validateAnalysisComplete (r : AnalysisResult) : Bool := r.hasRequiredFields

/-- Outcome of one `analyzeStockCore` call: either a returned result or a
thrown exception with its message. -/
inductive AnalysisAttempt where
  | value (r : AnalysisResult)
  | thrown (msg : String)

/-- The error result constructed in the catch branch of analyzeWithRetry
(orchestrator.ts lines 481-513), restricted to the fields the orchestrator
inspects afterwards. -/
def caughtResult (msg : String) : AnalysisResult :=
  { success := false, error := some msg, hasRequiredFields := false }

/-- Check if error is a Gemini rate limit error (orchestrator.ts lines
524-528): 503 together with "overloaded", or 429 together with "quota". -/
def isGeminiRateLimitError (error : Option String) : Bool :=
  match error with
  | none => false
  | some e =>
      (strIncludes e "503" && strIncludes e "overloaded") ||
      (strIncludes e "429" && strIncludes e "quota")

/-- Longest prefix of a `[\d.]+` run that JS `parseFloat` accepts
(digits, optionally a dot and more digits), returned as its ceiling;
`none` models a NaN parse (no digits before the first dot and none after). -/
def ceilOfDecimalRun (run : List Char) : Option Nat :=
  let intPart := run.takeWhile Char.isDigit
  let rest := run.dropWhile Char.isDigit
  let digitsVal : List Char → Nat :=
    fun ds => ds.foldl (fun acc c => 10 * acc + (c.toNat - 48)) 0
  match rest with
  | '.' :: rest2 =>
      let fracPart := rest2.takeWhile Char.isDigit
      if intPart.isEmpty && fracPart.isEmpty then none
      else some (digitsVal intPart + (if fracPart.any (fun c => c ≠ '0') then 1 else 0))
  | _ => if intPart.isEmpty then none else some (digitsVal intPart)

/-- Result of `extractRetryAfter`: JS `null` (no regex match), `NaN`
(the matched run had no digits), or the numeric value
`Math.min(Math.ceil(seconds), 60)`. -/
inductive RetryAfter where
  | nullv
  | nan
  | val (n : Nat)
deriving DecidableEq

/-- Find the first position where the pattern `Please retry in ([\d.]+)s`
matches and return the captured run. Because `s` is not in the `[\d.]` class,
the match at a literal occurrence succeeds exactly when the maximal `[\d.]`
run after it is nonempty and is followed by `s`. -/
def findRetryRun : List Char → Option (List Char)
  | [] => none
  | c :: rest =>
      let here := c :: rest
      if startsWithLit "Please retry in ".toList here then
        let after := here.drop 16
        let run := after.takeWhile (fun ch => ch.isDigit || ch = '.')
        let tail := after.dropWhile (fun ch => ch.isDigit || ch = '.')
        if !run.isEmpty && tail.headD ' ' = 's' then some run
        else findRetryRun rest
      else findRetryRun rest

/-- Extract retry delay from a Gemini error message (orchestrator.ts lines
534-546): match `Please retry in X.XXs`, parse the seconds, cap the ceiling at
60. Exact decimal arithmetic stands in for IEEE parseFloat. -/
def extractRetryAfter (error : Option String) : RetryAfter :=
  match error with
  | none => .nullv
  | some e =>
      match findRetryRun e.toList with
      | none => .nullv
      | some run =>
          match ceilOfDecimalRun run with
          | none => .nan
          | some n => .val (min n 60)

/-- The fixed escalating backoff schedule (orchestrator.ts line 426). -/
def backoffDelays : List Nat := [2000, 4000, 8000]

/-- The delay chosen before a retry (orchestrator.ts lines 451-454):
`retryAfterSeconds ? retryAfterSeconds * 1000 : backoffDelays[attempt]`,
where `null`, `NaN` and `0` are all falsy. -/
def retryDelayMs (error : Option String) (attempt : Nat) : Nat :=
  match extractRetryAfter error with
  | .val (n + 1) => (n + 1) * 1000
  | _ => backoffDelays.getD attempt 0

/-- Outcome of the retry loop: the final result, the number of
`analyzeStockCore` calls made, and the backoff delays awaited (in order). -/
structure RetryOutcome where
  result : AnalysisResult
  attemptsMade : Nat
  delays : List Nat
deriving DecidableEq

/-- The retry loop body of analyzeWithRetry (orchestrator.ts lines 428-515),
with the per-attempt call outcome supplied by the oracle. The fuel counts the
remaining loop iterations; falling out of the loop (unreachable when
`maxRetries ≥ 1`) corresponds to the final `throw` at line 518. -/
def analyzeWithRetryGo (oracle : Nat → AnalysisAttempt) (maxRetries : Nat) :
    Nat → Nat → RetryOutcome
  | _, 0 =>
      { result := caughtResult "Unexpected: retry loop completed without return"
        attemptsMade := 0, delays := [] }
  | attempt, fuel + 1 =>
      match oracle attempt with
      | .thrown msg =>
          { result := caughtResult msg, attemptsMade := attempt + 1, delays := [] }
      | .value r =>
          if r.success || !isGeminiRateLimitError r.error then
            { result := r, attemptsMade := attempt + 1, delays := [] }
          else if attempt + 1 < maxRetries then
            let rest := analyzeWithRetryGo oracle maxRetries (attempt + 1) fuel
            { result := rest.result
              attemptsMade := rest.attemptsMade
              delays := retryDelayMs r.error attempt :: rest.delays }
          else
            { result := r, attemptsMade := attempt + 1, delays := [] }

/-- Analyze stock with exponential backoff retry on 503/429 errors
(orchestrator.ts lines 421-519). The orchestrator always calls this with
`maxRetries = 3`. -/
def analyzeWithRetry (oracle : Nat → AnalysisAttempt) (maxRetries : Nat) :
    RetryOutcome :=
  analyzeWithRetryGo oracle maxRetries 0 maxRetries

/-! ## Execution engine (processQueue, orchestrator.ts lines 248-416) -/

/-- The status values written to a subscriber's Stock Analyses page. -/
inductive Status where
  | analyzing
  | complete
  | error
deriving DecidableEq

/-- Observable external effects of one chunk, in program order. A
`statusWrite` records the page targeted, the status value, and whether the
underlying Notion call succeeded (failed writes are caught and logged);
`archiveWrite` records a Stock History creation attempt for a user. -/
inductive Event where
  | statusWrite (pageId : String) (st : Status) (ok : Bool)
  | archiveWrite (userId : String) (ok : Bool)
  | backoffDelay (ms : Nat)
  | broadcastRetryDelay (ms : Nat)
  | interDelay (ms : Nat)
deriving DecidableEq

/-- Outcome of one `syncToNotion` call: a thrown error, or a settled result
whose `analysesPageId` may be null. -/
inductive SyncResult where
  | thrown (msg : String)
  | ok (analysesPageId : Option String)

/-- Outcome of one `archiveToHistory` call. -/
inductive ArchiveResult where
  | thrown (msg : String)
  | ok (historyPageId : Option String)

/-- Oracle for the external calls made on behalf of one subscriber of one
queue item: the "Analyzing" status update, the per-attempt sync outcome, the
per-attempt "Complete" status update, the error-state write performed by
setAnalysisError, and the archive call. -/
structure SubWorld where
  analyzingOk : Bool
  sync : Nat → SyncResult
  completeOk : Nat → Bool
  errorOk : Bool
  archive : ArchiveResult

/-- Oracle for one queue item: the analysis attempts and the per-subscriber
worlds (indexed by position in the item's subscriber list). -/
structure ItemWorld where
  analysis : Nat → AnalysisAttempt
  sub : Nat → SubWorld

/-- Environment configuration of the orchestrator (orchestrator.ts lines
28-29): ANALYSIS_DELAY_MS and ORCHESTRATOR_DRY_RUN. -/
structure Config where
  analysisDelayMs : Nat
  dryRun : Bool

/-- Broadcast to a single user with retry (broadcastToUser, orchestrator.ts
lines 585-679), as (fulfilled?, events). A sync outcome with a null
analysesPageId throws (line 620). On a non-final failed attempt the code waits
5 s and retries; on the final one it writes the error state through
setAnalysisError (whose own failure is caught internally) and rejects.
Fuel 0 corresponds to the loop falling through, which resolves the promise. -/
def broadcastToUserGo (w : SubWorld) (s : Subscriber) (maxRetries : Nat) :
    Nat → Nat → Bool × List Event
  | _, 0 => (true, [])
  | attempt, fuel + 1 =>
      match w.sync attempt with
      | .ok (some _) =>
          (true, [.statusWrite s.pageId .complete (w.completeOk attempt)])
      | .ok none =>
          if attempt + 1 < maxRetries then
            let rest := broadcastToUserGo w s maxRetries (attempt + 1) fuel
            (rest.1, .broadcastRetryDelay 5000 :: rest.2)
          else (false, [.statusWrite s.pageId .error w.errorOk])
      | .thrown _ =>
          if attempt + 1 < maxRetries then
            let rest := broadcastToUserGo w s maxRetries (attempt + 1) fuel
            (rest.1, .broadcastRetryDelay 5000 :: rest.2)
          else (false, [.statusWrite s.pageId .error w.errorOk])

/-- Broadcast to a single user; the orchestrator calls this with the default
`maxRetries = 2`. -/
def broadcastToUser (w : SubWorld) (s : Subscriber) (maxRetries : Nat) :
    Bool × List Event :=
  broadcastToUserGo w s maxRetries 0 maxRetries

/-- Broadcast the result to all subscribers with Promise.allSettled isolation
(broadcastToSubscribers, orchestrator.ts lines 551-580): every subscriber is
attempted, each outcome depends only on that subscriber's own oracle. -/
def broadcastStep (w : ItemWorld) (subs : List Subscriber) :
    List (Bool × List Event) :=
  (List.range subs.length).map
    (fun j => broadcastToUser (w.sub j) (subs.getD j dfltSubscriber) 2)

/-- Indices of the subscribers whose broadcast fulfilled, paired with the
subscribers themselves (orchestrator.ts lines 341-350). -/
def fulfilledPairs (subs : List Subscriber) (brs : List (Bool × List Event)) :
    List (Nat × Subscriber) :=
  ((List.range subs.length).filter (fun j => (brs.getD j (false, [])).1)).map
    (fun j => (j, subs.getD j dfltSubscriber))

/-- Deduplicate by userId, first occurrence wins, modelling the
`uniqueSubscribers` Map (orchestrator.ts lines 339-350). -/
def dedupeByUserId : List (Nat × Subscriber) → List String → List (Nat × Subscriber)
  | [], _ => []
  | (j, s) :: rest, seen =>
      if s.userId ∈ seen then dedupeByUserId rest seen
      else (j, s) :: dedupeByUserId rest (s.userId :: seen)

/-- Stock History creation for each unique fulfilled subscriber
(orchestrator.ts lines 332-396): one archive attempt per distinct userId, a
null return or a throw counting as failure, all failures isolated. -/
def historyStep (w : ItemWorld) (subs : List Subscriber)
    (brs : List (Bool × List Event)) : List Event :=
  (dedupeByUserId (fulfilledPairs subs brs) []).map
    (fun js =>
      match (w.sub js.1).archive with
      | .ok (some _) => Event.archiveWrite js.2.userId true
      | .ok none => Event.archiveWrite js.2.userId false
      | .thrown _ => Event.archiveWrite js.2.userId false)

/-- The "Analyzing" status fan-out before analysis (setAnalyzingStatus,
orchestrator.ts lines 687-709); failures are swallowed. -/
def analyzingEvts (w : ItemWorld) (subs : List Subscriber) : List Event :=
  (List.range subs.length).map
    (fun j =>
      Event.statusWrite (subs.getD j dfltSubscriber).pageId .analyzing
        ((w.sub j).analyzingOk))

/-- Broadcast error to all subscribers (broadcastError, orchestrator.ts lines
711-744): one independent setAnalysisError write per subscriber, each failure
caught so one subscriber's write failure cannot prevent another's. -/
def broadcastErrorEvts (w : ItemWorld) (subs : List Subscriber) : List Event :=
  (List.range subs.length).map
    (fun j =>
      Event.statusWrite (subs.getD j dfltSubscriber).pageId .error
        ((w.sub j).errorOk))

/-- Per-item metrics deltas and emitted events. -/
structure ItemOut where
  analyzed : Nat
  failed : Nat
  totalB : Nat
  succB : Nat
  failB : Nat
  saved : Nat
  events : List Event
deriving DecidableEq

/-- Process one queue item (the loop body of processQueue, orchestrator.ts
lines 275-403). Dry-run mode counts the item as analyzed and performs no
external call. A terminal analysis failure or an incomplete result broadcasts
the error state and continues (skipping, via `continue`, the inter-ticker
delay). On success the result is broadcast, histories are created for unique
fulfilled subscribers, and the fixed delay runs unless this is the last item
of the chunk. -/
def processItem (cfg : Config) (w : ItemWorld) (item : QueueItem)
    (isLast : Bool) : ItemOut :=
  if cfg.dryRun then
    { analyzed := 1, failed := 0, totalB := 0, succB := 0, failB := 0
      saved := (item.subscribers.length - 1) * 17, events := [] }
  else
    let aEvts := analyzingEvts w item.subscribers
    let a := analyzeWithRetry w.analysis 3
    let retryEvts := a.delays.map Event.backoffDelay
    if !a.result.success then
      { analyzed := 0, failed := 1, totalB := 0, succB := 0, failB := 0
        saved := 0
        events := aEvts ++ retryEvts ++ broadcastErrorEvts w item.subscribers }
    else if !validateAnalysisComplete a.result then
      { analyzed := 0, failed := 1, totalB := 0, succB := 0, failB := 0
        saved := 0
        events := aEvts ++ retryEvts ++ broadcastErrorEvts w item.subscribers }
    else
      let brs := broadcastStep w item.subscribers
      let succ := (brs.map Prod.fst).count true
      let hist := if 0 < succ then historyStep w item.subscribers brs else []
      let pacing :=
        if !isLast && 0 < cfg.analysisDelayMs then
          [Event.interDelay cfg.analysisDelayMs]
        else []
      { analyzed := 1, failed := 0
        totalB := brs.length
        succB := succ
        failB := brs.length - succ
        saved := (item.subscribers.length - 1) * 17
        events := aEvts ++ retryEvts ++ brs.flatMap Prod.snd ++ hist ++ pacing }

/-- The indices a chunk invocation iterates:
`startIndex .. min(startIndex + maxItems, queue.length))`
(orchestrator.ts lines 254, 275). -/
def chunkIdxs (queue : List QueueItem) (startIndex maxItems : Nat) : List Nat :=
  List.range' startIndex (min (startIndex + maxItems) queue.length - startIndex)

/-- The step performed at queue index `i`; `isLastItem` is
`i === endIndex - 1` (orchestrator.ts line 277). -/
def stepAt (cfg : Config) (w : Nat → ItemWorld) (queue : List QueueItem)
    (endIndex i : Nat) : ItemOut :=
  processItem cfg (w i) (queue.getD i dfltQueueItem) (i + 1 == endIndex)

/-- Orchestrator execution metrics (orchestrator.ts lines 67-78).
`durationMs` is wall-clock time and is modelled as 0. -/
structure Metrics where
  totalTickers : Nat
  totalSubscribers : Nat
  analyzed : Nat
  failed : Nat
  skipped : Nat
  totalBroadcasts : Nat
  successfulBroadcasts : Nat
  failedBroadcasts : Nat
  durationMs : Nat
  apiCallsSaved : Nat
deriving DecidableEq

/-- Step 3 of the orchestrator: process one chunk of the queue with rate
limiting and error isolation (processQueue, orchestrator.ts lines 248-416),
returning the accumulated metrics and the trace of external effects. -/
def processQueue (cfg : Config) (w : Nat → ItemWorld) (queue : List QueueItem)
    (startIndex maxItems : Nat) : Metrics × List Event :=
  let endIndex := min (startIndex + maxItems) queue.length
  let outs := (chunkIdxs queue startIndex maxItems).map (stepAt cfg w queue endIndex)
  ({ totalTickers := queue.length
     totalSubscribers := (queue.map (fun it => it.subscribers.length)).sum
     analyzed := (outs.map ItemOut.analyzed).sum
     failed := (outs.map ItemOut.failed).sum
     skipped := 0
     totalBroadcasts := (outs.map ItemOut.totalB).sum
     successfulBroadcasts := (outs.map ItemOut.succB).sum
     failedBroadcasts := (outs.map ItemOut.failB).sum
     durationMs := 0
     apiCallsSaved := (outs.map ItemOut.saved).sum },
   outs.flatMap ItemOut.events)

/-- The successful status writes landing on one page, in order. -/
def statusWritesTo (pageId : String) (events : List Event) : List Status :=
  events.filterMap
    (fun e =>
      match e with
      | .statusWrite p st true => if p = pageId then some st else none
      | _ => none)

/-- The status a page shows after the chunk: the last successful write to it. -/
def finalStatus (events : List Event) (pageId : String) : Option Status :=
  (statusWritesTo pageId events).getLast?

/-! ## Queue storage (src/lib/orchestration/queue-storage.ts) -/

/-- Modelled from the spec: the MarketContext produced by
src/lib/domain/market/index.ts (not among the provided sources) is an opaque
cached market snapshot; the scheduler only stores and forwards it. We model
the slice that identifies it. -/
structure MarketCtx where
  regime : String
deriving DecidableEq

/-- Stored queue structure in Redis (queue-storage.ts lines 28-37). -/
structure StoredQueue where
  id : String
  items : List QueueItem
  processedCount : Nat
  totalCount : Nat
  createdAt : String
  marketContext : Option MarketCtx
  chunkSize : Nat
  lastChunkAt : Option String
deriving DecidableEq

/-- JSON documents, as produced by JSON.stringify and consumed by JSON.parse.
The string serialization layer is the identity on well-formed documents, so
the store holds documents directly. -/
inductive JVal where
  | null
  | num (n : Nat)
  | str (s : String)
  | arr (xs : List JVal)
  | obj (fields : List (String × JVal))

/-- First-match field lookup in an object document. -/
def lookupField : List (String × JVal) → String → Option JVal
  | [], _ => none
  | f :: rest, k => if f.1 = k then some f.2 else lookupField rest k

def JVal.getField : JVal → String → Option JVal
  | .obj fs, k => lookupField fs k
  | _, _ => none

def JVal.asStr : JVal → Option String
  | .str s => some s
  | _ => none

def JVal.asNum : JVal → Option Nat
  | .num n => some n
  | _ => none

def JVal.asArr : JVal → Option (List JVal)
  | .arr xs => some xs
  | _ => none

/-- JSON form of a Subscriber. -/
def encodeSubscriber (s : Subscriber) : JVal :=
  .obj [("userId", .str s.userId), ("email", .str s.email), ("tier", .str s.tier),
        ("pageId", .str s.pageId), ("accessToken", .str s.accessToken),
        ("notionUserId", .str s.notionUserId), ("timezone", .str s.timezone),
        ("stockAnalysesDbId", .str s.stockAnalysesDbId),
        ("stockHistoryDbId", .str s.stockHistoryDbId)]

/-- JSON form of a QueueItem (the Date field serializes to its ISO string). -/
def encodeQueueItem (it : QueueItem) : JVal :=
  .obj [("ticker", .str it.ticker), ("priority", .num it.priority),
        ("subscribers", .arr (it.subscribers.map encodeSubscriber)),
        ("requestedAt", .str it.requestedAt)]

def encodeMarketCtx : Option MarketCtx → JVal
  | none => .null
  | some c => .obj [("regime", .str c.regime)]

/-- JSON form of a StoredQueue; an absent `lastChunkAt` is omitted, as
JSON.stringify omits undefined fields. -/
def encodeStoredQueue (q : StoredQueue) : JVal :=
  .obj ([("id", .str q.id), ("items", .arr (q.items.map encodeQueueItem)),
         ("processedCount", .num q.processedCount),
         ("totalCount", .num q.totalCount), ("createdAt", .str q.createdAt),
         ("marketContext", encodeMarketCtx q.marketContext),
         ("chunkSize", .num q.chunkSize)] ++
        (match q.lastChunkAt with
         | none => []
         | some t => [("lastChunkAt", .str t)]))

/-- Read a Subscriber back from its JSON form (the shape the
`JSON.parse(...) as StoredQueue` cast assumes). -/
def decodeSubscriber (v : JVal) : Option Subscriber := do
  let userId ← (v.getField "userId").bind JVal.asStr
  let email ← (v.getField "email").bind JVal.asStr
  let tier ← (v.getField "tier").bind JVal.asStr
  let pageId ← (v.getField "pageId").bind JVal.asStr
  let accessToken ← (v.getField "accessToken").bind JVal.asStr
  let notionUserId ← (v.getField "notionUserId").bind JVal.asStr
  let timezone ← (v.getField "timezone").bind JVal.asStr
  let stockAnalysesDbId ← (v.getField "stockAnalysesDbId").bind JVal.asStr
  let stockHistoryDbId ← (v.getField "stockHistoryDbId").bind JVal.asStr
  pure { userId, email, tier, pageId, accessToken, notionUserId, timezone,
         stockAnalysesDbId, stockHistoryDbId }

/-- Decode every element of a JSON array, failing if any element fails. -/
def decodeList {α : Type} (dec : JVal → Option α) : List JVal → Option (List α)
  | [] => some []
  | v :: rest => do
      let a ← dec v
      let as ← decodeList dec rest
      pure (a :: as)

def decodeQueueItem (v : JVal) : Option QueueItem := do
  let ticker ← (v.getField "ticker").bind JVal.asStr
  let priority ← (v.getField "priority").bind JVal.asNum
  let subsJ ← (v.getField "subscribers").bind JVal.asArr
  let subscribers ← decodeList decodeSubscriber subsJ
  let requestedAt ← (v.getField "requestedAt").bind JVal.asStr
  pure { ticker, priority, subscribers, requestedAt }

def decodeMarketCtx (v : JVal) : Option (Option MarketCtx) :=
  match v with
  | .null => some none
  | other => ((other.getField "regime").bind JVal.asStr).map
      (fun r => some { regime := r })

def decodeStoredQueue (v : JVal) : Option StoredQueue := do
  let id ← (v.getField "id").bind JVal.asStr
  let itemsJ ← (v.getField "items").bind JVal.asArr
  let items ← decodeList decodeQueueItem itemsJ
  let processedCount ← (v.getField "processedCount").bind JVal.asNum
  let totalCount ← (v.getField "totalCount").bind JVal.asNum
  let createdAt ← (v.getField "createdAt").bind JVal.asStr
  let mcJ ← v.getField "marketContext"
  let marketContext ← decodeMarketCtx mcJ
  let chunkSize ← (v.getField "chunkSize").bind JVal.asNum
  let lastChunkAt := (v.getField "lastChunkAt").bind JVal.asStr
  pure { id, items, processedCount, totalCount, createdAt, marketContext,
         chunkSize, lastChunkAt }

/-- The Redis key space: key-value pairs of JSON documents. -/
abbrev Store := List (String × JVal)

def storeGet : Store → String → Option JVal
  | [], _ => none
  | e :: rest, k => if e.1 = k then some e.2 else storeGet rest k

def storeSet : Store → String → JVal → Store
  | [], k, v => [(k, v)]
  | e :: rest, k, v =>
      if e.1 = k then (k, v) :: rest else e :: storeSet rest k v

def storeDel (st : Store) (k : String) : Store :=
  st.filter (fun e => !(e.1 == k))

/-- Outcome of one `fetch` call against the Upstash REST endpoint: a network
failure (the promise rejects) or a settled response with its `ok` flag and
status code. -/
inductive FetchOutcome where
  | netError (msg : String)
  | resp (ok : Bool) (status : Nat)
deriving DecidableEq

/-- Oracle for the two fetches saveQueueToRedis performs (SET, then EXPIRE). -/
structure SaveWorld where
  set : FetchOutcome
  expire : FetchOutcome

/-- Oracle for the single GET of loadQueueFromRedis. -/
structure LoadWorld where
  get : FetchOutcome

/-- Oracle for the GET and write-back SET of updateProcessedCount. -/
structure UpdateWorld where
  get : FetchOutcome
  set : FetchOutcome

/-- Oracle for the single DEL of deleteQueue. -/
structure DeleteWorld where
  del : FetchOutcome

/-- Save queue to Redis (queue-storage.ts lines 65-125). The SET response is
checked; a non-ok response or a network failure is rethrown by the catch
block. The EXPIRE response is not inspected, but a network failure of the
EXPIRE fetch still rejects and propagates. Returns the new store together with
the outcome; the store changes only when Redis actually executed the SET. -/
def saveQueueToRedis (configured : Bool) (w : SaveWorld) (st : Store)
    (queue : List QueueItem) (marketContext : Option MarketCtx)
    (chunkSize : Nat) (today nowIso : String) :
    Store × Except String String :=
  if !configured then (st, .error "Redis credentials not configured")
  else
    let queueId := "analysis_queue:" ++ today
    let storedQueue : StoredQueue :=
      { id := queueId, items := queue, processedCount := 0
        totalCount := queue.length, createdAt := nowIso
        marketContext := marketContext, chunkSize := chunkSize
        lastChunkAt := none }
    match w.set with
    | .netError m => (st, .error m)
    | .resp ok status =>
        if !ok then (st, .error ("Redis SET failed: " ++ toString status))
        else
          let st1 := storeSet st queueId (encodeStoredQueue storedQueue)
          match w.expire with
          | .netError m => (st1, .error m)
          | .resp _ _ => (st1, .ok queueId)

/-- Load queue from Redis (queue-storage.ts lines 136-183). A 404 response or
a null result yields `none` (first run); any other non-ok response or a
network failure is rethrown. A document of the wrong shape decodes to `none`;
this is unreachable for values written by saveQueueToRedis. -/
def loadQueueFromRedis (configured : Bool) (w : LoadWorld) (st : Store)
    (targetDate : String) : Except String (Option StoredQueue) :=
  if !configured then .error "Redis credentials not configured"
  else
    let queueId := "analysis_queue:" ++ targetDate
    match w.get with
    | .netError m => .error m
    | .resp ok status =>
        if !ok then
          if status = 404 then .ok none
          else .error ("Redis GET failed: " ++ toString status)
        else
          match storeGet st queueId with
          | none => .ok none
          | some v => .ok (decodeStoredQueue v)

/-- Update processed count in Redis (queue-storage.ts lines 193-249). The GET
is checked (non-ok response or missing queue throws); the write-back SET's
response is NOT inspected, so a backend error response on the SET leaves the
old cursor in place while the function still reports success. A network
failure of the SET fetch rejects and is rethrown by the catch block. -/
def updateProcessedCount (configured : Bool) (w : UpdateWorld) (st : Store)
    (queueId : String) (processedCount : Nat) (nowIso : String) :
    Store × Except String Unit :=
  if !configured then (st, .error "Redis credentials not configured")
  else
    match w.get with
    | .netError m => (st, .error m)
    | .resp ok status =>
        if !ok then (st, .error ("Redis GET failed: " ++ toString status))
        else
          match storeGet st queueId with
          | none => (st, .error "Queue not found")
          | some v =>
              match decodeStoredQueue v with
              | none => (st, .error "Queue not found")
              | some storedQueue =>
                  let q1 := { storedQueue with
                                processedCount := processedCount
                                lastChunkAt := some nowIso }
                  match w.set with
                  | .netError m => (st, .error m)
                  | .resp ok2 _ =>
                      (if ok2 then storeSet st queueId (encodeStoredQueue q1)
                       else st,
                       .ok ())

/-- Delete queue from Redis (queue-storage.ts lines 259-280). The DEL response
is not inspected: only a network failure propagates; a backend error response
leaves the queue in place while the function reports success. -/
def deleteQueue (configured : Bool) (w : DeleteWorld) (st : Store)
    (queueId : String) : Store × Except String Unit :=
  if !configured then (st, .error "Redis credentials not configured")
  else
    match w.del with
    | .netError m => (st, .error m)
    | .resp ok _ => (if ok then storeDel st queueId else st, .ok ())

/-! ## Chunked cron driver (src/api/cron/scheduled-analyses.ts) -/

/-- Result of one cron invocation's queue-progress logic. -/
structure CronOutcome where
  newStore : Option StoredQueue
  mode : String
  startIndex : Nat
  itemsToProcess : Nat
  processedItems : Nat
  isComplete : Bool
  metrics : Metrics
  events : List Event
deriving DecidableEq

/-- The queue-progress logic of the cron handler (scheduled-analyses.ts lines
90-224) on its happy path (auth passed, market day, store operations
succeed — a store failure returns 500 before any cursor change). With an
existing queue it resumes at `processedCount`, processes
`min(CHUNK_SIZE, remaining)` items, checkpoints
`startIndex + itemsToProcess`, and deletes the queue exactly when the new
count reaches the total. With no queue it saves a fresh one (processed 0),
processes the first chunk, checkpoints the count attempted, and deletes when
a single chunk covered everything. -/
def cronStep (chunkSize : Nat) (store : Option StoredQueue)
    (freshQueue : List QueueItem) (ctx : Option MarketCtx)
    (today nowIso : String) (cfg : Config) (w : Nat → ItemWorld) :
    CronOutcome :=
  match store with
  | some existingQueue =>
      let startIndex := existingQueue.processedCount
      let remainingItems := existingQueue.totalCount - startIndex
      let itemsToProcess := min chunkSize remainingItems
      let pq := processQueue cfg w existingQueue.items startIndex itemsToProcess
      let newProcessedCount := startIndex + itemsToProcess
      let q1 := { existingQueue with
                    processedCount := newProcessedCount
                    lastChunkAt := some nowIso }
      let isComplete := existingQueue.totalCount ≤ newProcessedCount
      { newStore := if isComplete then none else some q1
        mode := "resume"
        startIndex := startIndex
        itemsToProcess := itemsToProcess
        processedItems := newProcessedCount
        isComplete := isComplete
        metrics := pq.1
        events := pq.2 }
  | none =>
      let queueId := "analysis_queue:" ++ today
      let storedQueue : StoredQueue :=
        { id := queueId, items := freshQueue, processedCount := 0
          totalCount := freshQueue.length, createdAt := nowIso
          marketContext := ctx, chunkSize := chunkSize, lastChunkAt := none }
      let itemsToProcess := min chunkSize freshQueue.length
      let pq := processQueue cfg w freshQueue 0 itemsToProcess
      let q1 := { storedQueue with
                    processedCount := itemsToProcess
                    lastChunkAt := some nowIso }
      let isComplete := freshQueue.length ≤ itemsToProcess
      { newStore := if isComplete then none else some q1
        mode := "first_run"
        startIndex := 0
        itemsToProcess := itemsToProcess
        processedItems := itemsToProcess
        isComplete := isComplete
        metrics := pq.1
        events := pq.2 }

/-! ## Concrete instances used by witnesses and counterexamples -/

def exSubPro : Subscriber := { dfltSubscriber with userId := "uP", tier := "Pro", pageId := "pgP" }

def exSubOdd : Subscriber := { dfltSubscriber with userId := "uV", tier := "VIP", pageId := "pgV" }

def exUserA : User :=
  { id := "u1", email := "a@x", accessToken := "ta", notionUserId := "na"
    subscriptionTier := some "Pro", timezone := none
    stockAnalysesDbId := some "db1", stockHistoryDbId := some "h1"
    hasDataSource := true, collectError := false
    pages := [{ id := "p1", ticker := " nvda " }, { id := "p2", ticker := "AAPL" }] }

def exUserB : User :=
  { id := "u2", email := "b@x", accessToken := "tb", notionUserId := "nb"
    subscriptionTier := some "Free", timezone := some "UTC"
    stockAnalysesDbId := some "db2", stockHistoryDbId := none
    hasDataSource := true, collectError := false
    pages := [{ id := "p3", ticker := "NVDA" }] }

def exUsersC1 : List User := [exUserA, exUserB]

def exItemC1 : QueueItem :=
  { ticker := "NVDA", priority := 1
    subscribers := [mkSubscriber exUserA { id := "p1", ticker := " nvda " },
                    mkSubscriber exUserB { id := "p3", ticker := "NVDA" }]
    requestedAt := "T" }

def exMapC5 : TickerMap := [("B", [exSubPro]), ("A", [exSubPro])]

def exItemC5 : QueueItem :=
  { ticker := "B", priority := 1, subscribers := [exSubPro], requestedAt := "T" }

def exMapC10 : TickerMap := [("A", [exSubOdd]), ("B", [exSubPro])]

def exErrC6 : String := "503 The model is overloaded. Please retry in 0s"

def exOracleC6 : Nat → AnalysisAttempt :=
  fun n =>
    if n = 0 then
      .value { success := false, error := some exErrC6, hasRequiredFields := false }
    else
      .value { success := true, error := none, hasRequiredFields := true }

/-- Predicate on events: is this the inter-subject pacing delay? -/
def Event.isInter : Event → Bool
  | .interDelay _ => true
  | _ => false

/-- A sync outcome that makes broadcastToUser treat the attempt as failed:
either syncToNotion threw, or it settled with a null analysesPageId. -/
def syncFailed : SyncResult → Bool
  | .ok (some _) => false
  | _ => true

def exAnalysisOk : Nat → AnalysisAttempt :=
  fun _ => .value { success := true, error := none, hasRequiredFields := true }

def exAnalysisBad : Nat → AnalysisAttempt :=
  fun _ => .value { success := false, error := some "boom", hasRequiredFields := false }

def exSubWorldOk : SubWorld :=
  { analyzingOk := true, sync := fun _ => .ok (some "pid")
    completeOk := fun _ => true, errorOk := true, archive := .ok (some "hid") }

def exItemWorldOk : ItemWorld := { analysis := exAnalysisOk, sub := fun _ => exSubWorldOk }

def exItemWorldBad : ItemWorld := { analysis := exAnalysisBad, sub := fun _ => exSubWorldOk }

def exCfg : Config := { analysisDelayMs := 8000, dryRun := false }

def exItemA : QueueItem :=
  { ticker := "AAA", priority := 1, subscribers := [exSubPro], requestedAt := "T" }

def exQueueTwo : List QueueItem := [exItemA, exItemA]

/-- World for a two-item chunk whose first subject fails terminally. -/
def exWorldsFailFirst : Nat → ItemWorld :=
  fun i => if i = 0 then exItemWorldBad else exItemWorldOk

/-- World where everything succeeds for every item. -/
def exWorldsOk : Nat → ItemWorld := fun _ => exItemWorldOk

def exSubB : Subscriber :=
  { dfltSubscriber with userId := "uB", tier := "Free", pageId := "pgB" }

def exItemTwoSubs : QueueItem :=
  { ticker := "TT", priority := 1, subscribers := [exSubPro, exSubB]
    requestedAt := "T" }

def exSubWorldFail : SubWorld :=
  { analyzingOk := true, sync := fun _ => .thrown "refused"
    completeOk := fun _ => true, errorOk := true, archive := .ok (some "hid") }

/-- World where only the subscriber at index 1 has a failing delivery. -/
def exItemWorldOneFail : ItemWorld :=
  { analysis := exAnalysisOk
    sub := fun j => if j = 1 then exSubWorldFail else exSubWorldOk }

def exQueue15 : List QueueItem := List.replicate 15 exItemA

def exStoredQueueC8 : StoredQueue :=
  { id := "analysis_queue:d", items := [], processedCount := 0, totalCount := 0
    createdAt := "T", marketContext := none, chunkSize := 8
    lastChunkAt := none }

def exStoreC8 : Store :=
  storeSet [] "analysis_queue:d" (encodeStoredQueue exStoredQueueC8)

def exUpdWorldBadSet : UpdateWorld := { get := .resp true 200, set := .resp false 500 }

def exDelWorldBad : DeleteWorld := { del := .resp false 500 }

def exSaveWorldOk : SaveWorld := { set := .resp true 200, expire := .resp true 200 }

def exSaveWorldNet : SaveWorld := { set := .netError "net down", expire := .resp true 200 }

def exLoadWorldOk : LoadWorld := { get := .resp true 200 }

/-- The StoredQueue record assembled by saveQueueToRedis. -/
def mkStoredQueue (queue : List QueueItem) (ctx : Option MarketCtx)
    (chunkSize : Nat) (today nowIso : String) : StoredQueue :=
  { id := "analysis_queue:" ++ today, items := queue, processedCount := 0
    totalCount := queue.length, createdAt := nowIso, marketContext := ctx
    chunkSize := chunkSize, lastChunkAt := none }

/-! # Theorems -/

/-! ## Ticker-map lemmas -/

theorem lookupTM_addSub (m : TickerMap) (k k2 : String) (s : Subscriber) :
    lookupTM (addSub m k s) k2 =
      if k = k2 then lookupTM m k2 ++ [s] else lookupTM m k2 := by
  induction m with
  | nil => by_cases h : k = k2 <;> simp [addSub, lookupTM, h]
  | cons e rest ih =>
      by_cases h1 : e.1 = k <;> by_cases h2 : k = k2
      · subst h2; simp [addSub, lookupTM, h1]
      · have h3 : ¬ (e.1 = k2) := by rw [h1]; exact h2
        simp [addSub, lookupTM, h1, h2, h3]
      · subst h2
        simp [addSub, lookupTM, h1, ih]
      · by_cases h3 : e.1 = k2
        · have h2s : ¬ (k2 = k) := fun hh => h2 hh.symm
          simp [addSub, lookupTM, h1, h2, h3, h2s, ih]
        · simp [addSub, lookupTM, h1, h2, h3, ih]

theorem keys_addSub (m : TickerMap) (k : String) (s : Subscriber) :
    (addSub m k s).map Prod.fst =
      if k ∈ m.map Prod.fst then m.map Prod.fst else m.map Prod.fst ++ [k] := by
  induction m with
  | nil => simp [addSub]
  | cons e rest ih =>
      by_cases h1 : e.1 = k
      · simp [addSub, h1]
      · have h1s : ¬ (k = e.1) := fun h => h1 h.symm
        by_cases h2 : k ∈ rest.map Prod.fst <;> simp [addSub, h1, h1s, h2, ih]

theorem nodupKeys_addSub {m : TickerMap} (h : (m.map Prod.fst).Nodup)
    (k : String) (s : Subscriber) : ((addSub m k s).map Prod.fst).Nodup := by
  rw [keys_addSub]
  by_cases hk : k ∈ m.map Prod.fst
  · simpa [hk] using h
  · rw [if_neg hk, List.nodup_append]
    refine ⟨h, List.nodup_singleton _, ?_⟩
    intro a ha hak
    rw [List.mem_singleton] at hak
    exact hk (hak ▸ ha)

theorem nonempty_addSub (k : String) (s : Subscriber) :
    ∀ (m : TickerMap), (∀ e ∈ m, e.2 ≠ []) → ∀ e ∈ addSub m k s, e.2 ≠ []
  | [], _, e, he => by
      simp [addSub] at he
      simp [he]
  | e0 :: rest, h, e, he => by
      by_cases h1 : e0.1 = k
      · simp [addSub, h1] at he
        rcases he with he | he
        · simp [he]
        · exact h e (List.mem_cons_of_mem _ he)
      · simp [addSub, h1] at he
        rcases he with he | he
        · exact he ▸ h e0 (List.mem_cons_self _ _)
        · exact nonempty_addSub k s rest
            (fun x hx => h x (List.mem_cons_of_mem _ hx)) e he

theorem lookupTM_pagesFold (u : User) (pages : List Page) (m : TickerMap)
    (k : String) :
    lookupTM
        (pages.foldl
          (fun acc p =>
            if p.ticker = "" then acc
            else addSub acc (normalizeTicker p.ticker) (mkSubscriber u p))
          m) k
      = lookupTM m k ++
        ((pages.filter
            (fun p => !(p.ticker == "") && (normalizeTicker p.ticker == k))).map
          (mkSubscriber u)) := by
  induction pages generalizing m with
  | nil => simp
  | cons p ps ih =>
      by_cases hz : p.ticker = ""
      · simp [List.foldl_cons, hz, ih, List.filter_cons]
      · by_cases hk : normalizeTicker p.ticker = k <;>
          simp [List.foldl_cons, hz, hk, ih, lookupTM_addSub, List.filter_cons]

theorem lookupTM_collectUserInto (u : User) (m : TickerMap) (k : String) :
    lookupTM (collectUserInto u m) k = lookupTM m k ++ perUserRequests u k := by
  unfold collectUserInto perUserRequests
  by_cases he : userEligible u
  · simp [he, lookupTM_pagesFold]
  · simp [he]

theorem lookupTM_usersFold (users : List User) (m : TickerMap) (k : String) :
    lookupTM (users.foldl (fun m u => collectUserInto u m) m) k
      = lookupTM m k ++ requestsFor users k := by
  induction users generalizing m with
  | nil => simp [requestsFor]
  | cons u us ih =>
      simp [requestsFor, List.foldl_cons, ih, lookupTM_collectUserInto,
        List.append_assoc]

theorem lookupTM_collect (users : List User) (k : String) :
    lookupTM (collectStockRequests users) k = requestsFor users k := by
  have h := lookupTM_usersFold users [] k
  simpa [collectStockRequests, lookupTM] using h

theorem keysNodup_pagesFold (u : User) (pages : List Page) :
    ∀ (m : TickerMap), (m.map Prod.fst).Nodup →
      ((pages.foldl
          (fun acc p =>
            if p.ticker = "" then acc
            else addSub acc (normalizeTicker p.ticker) (mkSubscriber u p))
          m).map Prod.fst).Nodup := by
  induction pages with
  | nil => intro m h; simpa using h
  | cons p ps ih =>
      intro m h
      by_cases hz : p.ticker = ""
      · simpa [List.foldl_cons, hz] using ih m h
      · simpa [List.foldl_cons, hz] using ih _ (nodupKeys_addSub h _ _)

theorem keysNodup_collectUserInto (u : User) (m : TickerMap)
    (h : (m.map Prod.fst).Nodup) :
    ((collectUserInto u m).map Prod.fst).Nodup := by
  unfold collectUserInto
  by_cases he : userEligible u
  · simpa [he] using keysNodup_pagesFold u u.pages m h
  · simpa [he] using h

theorem keysNodup_collect (users : List User) :
    ((collectStockRequests users).map Prod.fst).Nodup := by
  suffices h : ∀ (m : TickerMap), (m.map Prod.fst).Nodup →
      ((users.foldl (fun m u => collectUserInto u m) m).map Prod.fst).Nodup by
    exact h [] (by simp)
  induction users with
  | nil => intro m h; simpa using h
  | cons u us ih =>
      intro m h
      simpa [List.foldl_cons] using ih _ (keysNodup_collectUserInto u m h)

theorem nonempty_pagesFold (u : User) (pages : List Page) :
    ∀ (m : TickerMap), (∀ e ∈ m, e.2 ≠ []) →
      ∀ e ∈ (pages.foldl
          (fun acc p =>
            if p.ticker = "" then acc
            else addSub acc (normalizeTicker p.ticker) (mkSubscriber u p))
          m), e.2 ≠ [] := by
  induction pages with
  | nil => intro m h; simpa using h
  | cons p ps ih =>
      intro m h
      by_cases hz : p.ticker = ""
      · simpa [List.foldl_cons, hz] using ih m h
      · simpa [List.foldl_cons, hz] using ih _ (nonempty_addSub _ _ m h)

theorem nonempty_collectUserInto (u : User) (m : TickerMap)
    (h : ∀ e ∈ m, e.2 ≠ []) : ∀ e ∈ collectUserInto u m, e.2 ≠ [] := by
  unfold collectUserInto
  by_cases he : userEligible u
  · simpa [he] using nonempty_pagesFold u u.pages m h
  · simpa [he] using h

theorem nonempty_collect (users : List User) :
    ∀ e ∈ collectStockRequests users, e.2 ≠ [] := by
  suffices h : ∀ (m : TickerMap), (∀ e ∈ m, e.2 ≠ []) →
      ∀ e ∈ users.foldl (fun m u => collectUserInto u m) m, e.2 ≠ [] by
    exact h [] (by simp)
  induction users with
  | nil => intro m h; simpa using h
  | cons u us ih =>
      intro m h
      simpa [List.foldl_cons] using ih _ (nonempty_collectUserInto u m h)

theorem lookupTM_of_mem :
    ∀ {m : TickerMap}, (m.map Prod.fst).Nodup →
      ∀ {e : String × List Subscriber}, e ∈ m → lookupTM m e.1 = e.2 := by
  intro m
  induction m with
  | nil => intro _ e he; cases he
  | cons e0 rest ih =>
      intro h e he
      rcases List.mem_cons.mp he with he | he
      · subst he; simp [lookupTM]
      · have hmem : e.1 ∈ rest.map Prod.fst := List.mem_map_of_mem _ he
        have hne : ¬ (e0.1 = e.1) := by
          intro hh
          exact (List.nodup_cons.mp h).1 (hh ▸ hmem)
        simp [lookupTM, hne, ih (List.nodup_cons.mp h).2 he]

theorem mem_keys_iff_lookupTM_ne :
    ∀ (m : TickerMap), (∀ e ∈ m, e.2 ≠ []) →
      ∀ k, (k ∈ m.map Prod.fst ↔ lookupTM m k ≠ [])
  | [], _, k => by simp [lookupTM]
  | e :: rest, h, k => by
      by_cases h1 : e.1 = k
      · simpa [lookupTM, h1, eq_comm] using h e (List.mem_cons_self _ _)
      · have h1s : ¬ (k = e.1) := fun hh => h1 hh.symm
        simpa [lookupTM, h1, h1s] using
          mem_keys_iff_lookupTM_ne rest
            (fun x hx => h x (List.mem_cons_of_mem _ hx)) k

/-! ## Queue-builder lemmas -/

theorem perm_buildPriorityQueue (m : TickerMap) (now : String) :
    (buildPriorityQueue m now).Perm (queueEntries m now) :=
  List.perm_insertionSort _ _

theorem sorted_buildPriorityQueue (m : TickerMap) (now : String) :
    List.Sorted queueLE (buildPriorityQueue m now) :=
  List.sorted_insertionSort _ _

theorem mem_buildPriorityQueue {m : TickerMap} {now : String} {it : QueueItem} :
    it ∈ buildPriorityQueue m now ↔ it ∈ queueEntries m now :=
  (perm_buildPriorityQueue m now).mem_iff

theorem priority_of_mem_build {m : TickerMap} {now : String} {it : QueueItem}
    (hit : it ∈ buildPriorityQueue m now) :
    it.priority = minTierPriority it.subscribers := by
  rcases List.mem_map.mp (mem_buildPriorityQueue.mp hit) with ⟨e, hem, rfl⟩
  rfl

theorem subscribers_of_mem_build {m : TickerMap} {now : String} {it : QueueItem}
    (h : (m.map Prod.fst).Nodup) (hit : it ∈ buildPriorityQueue m now) :
    it.subscribers = lookupTM m it.ticker := by
  rcases List.mem_map.mp (mem_buildPriorityQueue.mp hit) with ⟨e, hem, rfl⟩
  simpa [entryToItem] using (lookupTM_of_mem h hem).symm

/-! ## Claim C1 -/

/-- C1: for every set of per-tenant requests, the queue produced by
collectStockRequests followed by buildPriorityQueue contains exactly one
QueueItem per distinct normalized subject key (tickers are case-folded and
trimmed by normalizeTicker), a key is present exactly when some tenant's
collected request maps to it, and each item's subscriber list is exactly the
union (in collection order) of the subscribers of all tenants that requested
that subject. -/
theorem collect_build_one_item_per_key (users : List User) (now : String) :
    ((buildPriorityQueue (collectStockRequests users) now).map
        QueueItem.ticker).Nodup ∧
    (∀ key : String,
        (∃ it ∈ buildPriorityQueue (collectStockRequests users) now,
            it.ticker = key) ↔ requestsFor users key ≠ []) ∧
    (∀ it ∈ buildPriorityQueue (collectStockRequests users) now,
        it.subscribers = requestsFor users it.ticker) := by
  have hnodup := keysNodup_collect users
  have hnonempty := nonempty_collect users
  refine ⟨?_, ?_, ?_⟩
  · have hmapeq : (queueEntries (collectStockRequests users) now).map
        QueueItem.ticker = (collectStockRequests users).map Prod.fst := by
      simp only [queueEntries, List.map_map]
      exact List.map_congr_left (fun e _ => rfl)
    have hperm := (perm_buildPriorityQueue (collectStockRequests users) now).map
      QueueItem.ticker
    rw [hmapeq] at hperm
    exact hperm.nodup_iff.mpr hnodup
  · intro key
    constructor
    · rintro ⟨it, hit, rfl⟩
      rcases List.mem_map.mp (mem_buildPriorityQueue.mp hit) with ⟨e, hem, rfl⟩
      have h2 : lookupTM (collectStockRequests users) (entryToItem now e).ticker
          ≠ [] := by
        show lookupTM (collectStockRequests users) e.1 ≠ []
        rw [lookupTM_of_mem hnodup hem]
        exact hnonempty e hem
      rwa [lookupTM_collect] at h2
    · intro hr
      have hk : key ∈ (collectStockRequests users).map Prod.fst := by
        apply (mem_keys_iff_lookupTM_ne (collectStockRequests users)
          hnonempty key).mpr
        rwa [lookupTM_collect]
      rcases List.mem_map.mp hk with ⟨e, hem, hfst⟩
      refine ⟨entryToItem now e,
        mem_buildPriorityQueue.mpr (List.mem_map_of_mem _ hem), hfst⟩
  · intro it hit
    rw [subscribers_of_mem_build hnodup hit, lookupTM_collect]

/-- Witness for C1: in a concrete two-user scenario (one requesting
" nvda " and "AAPL", the other "NVDA"), the deduplicated NVDA item carries
exactly the union of the two tenants' subscribers. -/
theorem collect_build_one_item_per_key_witness :
    exItemC1.subscribers = requestsFor exUsersC1 exItemC1.ticker :=
  (collect_build_one_item_per_key exUsersC1 "T").2.2 exItemC1 (by decide)

/-! ## Claim C5 -/

/-- Stability of orderedInsert with respect to the priority key: filtering one
priority value commutes with the insertion. -/
theorem filter_orderedInsert (p : Nat) (a : QueueItem) (l : List QueueItem) :
    (List.orderedInsert queueLE a l).filter (fun it => it.priority == p) =
      if a.priority = p then
        a :: l.filter (fun it => it.priority == p)
      else l.filter (fun it => it.priority == p) := by
  induction l with
  | nil => by_cases hap : a.priority = p <;> simp [List.orderedInsert, hap]
  | cons b t ih =>
      by_cases hle : queueLE a b
      · by_cases hap : a.priority = p <;>
          simp [List.orderedInsert, hle, List.filter_cons, hap]
      · have hba : b.priority < a.priority := by
          have : ¬ (a.priority ≤ b.priority) := hle
          omega
        by_cases hbp : b.priority = p
        · have hap : ¬ (a.priority = p) := by omega
          simp [List.orderedInsert, hle, List.filter_cons, hbp, hap, ih]
        · by_cases hap : a.priority = p <;>
            simp [List.orderedInsert, hle, List.filter_cons, hbp, hap, ih]

/-- Stability of the whole sort: the sublist of items holding any given
priority is unchanged, i.e. ties keep their ticker-map insertion order. -/
theorem filter_insertionSort (p : Nat) (l : List QueueItem) :
    (List.insertionSort queueLE l).filter (fun it => it.priority == p) =
      l.filter (fun it => it.priority == p) := by
  induction l with
  | nil => rfl
  | cons a t ih =>
      by_cases hap : a.priority = p <;>
        simp [List.insertionSort, filter_orderedInsert, ih, List.filter_cons, hap]

/-- C5 counterexample: with two entries of equal priority inserted as B then A,
the built queue keeps the order B, A even though A precedes B in subject-key
order — the sort breaks ties by ticker-map insertion order (JS stable sort),
not by subject key. -/
theorem buildPriorityQueue_tie_not_key_ordered :
    ((buildPriorityQueue exMapC5 "T").map QueueItem.ticker = ["B", "A"]) ∧
    ((buildPriorityQueue exMapC5 "T").map QueueItem.priority = [1, 1]) ∧
    "A".toList = ['A'] ∧ "B".toList = ['B'] ∧ ('A' : Char) < 'B' := by
  refine ⟨by decide, by decide, by decide, by decide, by decide⟩

/-- C5 (amended): buildPriorityQueue assigns each item priority equal to the
minimum tier index among its subscribers and returns the entries sorted
ascending by priority; ties are broken by ticker-map insertion order (the sort
is stable), not by subject key, which still makes repeated builds from
identical input produce identical order. -/
theorem buildPriorityQueue_sorted_stable (m : TickerMap) (now : String) :
    List.Sorted queueLE (buildPriorityQueue m now) ∧
    (buildPriorityQueue m now).Perm (queueEntries m now) ∧
    (∀ it ∈ buildPriorityQueue m now,
        it.priority = minTierPriority it.subscribers) ∧
    (∀ p : Nat,
        (buildPriorityQueue m now).filter (fun it => it.priority == p) =
          (queueEntries m now).filter (fun it => it.priority == p)) := by
  refine ⟨sorted_buildPriorityQueue m now, perm_buildPriorityQueue m now,
    ?_, ?_⟩
  · intro it hit
    exact priority_of_mem_build hit
  · intro p
    exact filter_insertionSort p (queueEntries m now)

/-- Witness for C5 (amended), applied to the concrete two-entry map. -/
theorem buildPriorityQueue_sorted_stable_witness :
    exItemC5.priority = minTierPriority exItemC5.subscribers :=
  (buildPriorityQueue_sorted_stable exMapC5 "T").2.2.1 exItemC5 (by decide)

/-! ## Claim C10 -/

theorem foldl_min_le_init :
    ∀ (ps : List Nat) (q : Nat), ps.foldl Nat.min q ≤ q
  | [], q => le_refl q
  | x :: t, q =>
      le_trans (foldl_min_le_init t (Nat.min q x)) (Nat.min_le_left q x)

theorem foldl_min_le_mem :
    ∀ (ps : List Nat) (q x : Nat), x ∈ ps → ps.foldl Nat.min q ≤ x
  | [], _, _, h => absurd h (List.not_mem_nil _)
  | y :: t, q, x, h => by
      rcases List.mem_cons.mp h with h | h
      · subst h
        exact le_trans (foldl_min_le_init t (Nat.min q x)) (Nat.min_le_right q x)
      · exact foldl_min_le_mem t (Nat.min q y) x h

theorem foldl_min_all_eq :
    ∀ (ps : List Nat) (q : Nat), (∀ x ∈ ps, x = q) → ps.foldl Nat.min q = q
  | [], _, _ => rfl
  | x :: t, q, h => by
      have hx := h x (List.mem_cons_self _ _)
      subst hx
      have h2 : Nat.min x x = x := by simp [Nat.min_def]
      rw [List.foldl_cons, h2]
      exact foldl_min_all_eq t x (fun y hy => h y (List.mem_cons_of_mem _ hy))

theorem minTierPriority_le {subs : List Subscriber} {s : Subscriber}
    (hs : s ∈ subs) : minTierPriority subs ≤ tierPriorityOrDefault s.tier := by
  cases subs with
  | nil => cases hs
  | cons s0 t =>
      rcases List.mem_cons.mp hs with h | h
      · subst h
        simpa [minTierPriority] using foldl_min_le_init _ _
      · simpa [minTierPriority] using
          foldl_min_le_mem _ _ _
            (List.mem_map_of_mem (fun s => tierPriorityOrDefault s.tier) h)

theorem minTierPriority_all99 {subs : List Subscriber} (hne : subs ≠ [])
    (h : ∀ s ∈ subs, tierPriorityOrDefault s.tier = 99) :
    minTierPriority subs = 99 := by
  cases subs with
  | nil => exact absurd rfl hne
  | cons s0 t =>
      have h0 := h s0 (List.mem_cons_self _ _)
      simp only [minTierPriority, List.map_cons, h0]
      apply foldl_min_all_eq
      intro x hx
      rcases List.mem_map.mp hx with ⟨s, hsm, rfl⟩
      exact h s (List.mem_cons_of_mem _ hsm)

theorem tierPriority_unrecognized {t : String} (h : TIER_PRIORITY t = none) :
    tierPriorityOrDefault t = 99 := by
  simp [tierPriorityOrDefault, h]

theorem tierPriority_recognized_le {t : String} (h : TIER_PRIORITY t ≠ none) :
    tierPriorityOrDefault t ≤ 4 := by
  unfold tierPriorityOrDefault TIER_PRIORITY at *
  split_ifs at * <;> simp_all

/-- C10: a subscriber whose tier string is not one of the four recognized
tiers is assigned the fallback priority index 99, so a queue item all of whose
subscribers have unrecognized tiers (its best subscriber included) sorts after
every item that has at least one recognized-tier subscriber. -/
theorem unrecognizedTier_sorts_after (m : TickerMap) (now : String) (i j : Nat)
    (hi : i < (buildPriorityQueue m now).length)
    (hj : j < (buildPriorityQueue m now).length)
    (hne : ((buildPriorityQueue m now).get ⟨i, hi⟩).subscribers ≠ [])
    (hall : ∀ s ∈ ((buildPriorityQueue m now).get ⟨i, hi⟩).subscribers,
        TIER_PRIORITY s.tier = none)
    (hsome : ∃ s ∈ ((buildPriorityQueue m now).get ⟨j, hj⟩).subscribers,
        TIER_PRIORITY s.tier ≠ none) :
    (∀ t : String, TIER_PRIORITY t = none → tierPriorityOrDefault t = 99) ∧
      j < i := by
  refine ⟨fun t ht => tierPriority_unrecognized ht, ?_⟩
  have hpi : ((buildPriorityQueue m now).get ⟨i, hi⟩).priority = 99 := by
    rw [priority_of_mem_build (List.get_mem (buildPriorityQueue m now) i hi)]
    exact minTierPriority_all99 hne
      (fun s hs => tierPriority_unrecognized (hall s hs))
  have hpj : ((buildPriorityQueue m now).get ⟨j, hj⟩).priority ≤ 4 := by
    rcases hsome with ⟨s, hs, hrec⟩
    rw [priority_of_mem_build (List.get_mem (buildPriorityQueue m now) j hj)]
    exact le_trans (minTierPriority_le hs) (tierPriority_recognized_le hrec)
  by_contra hcon
  push_neg at hcon
  rcases Nat.lt_or_ge j i with hlt | hge
  · exact absurd hlt (by omega)
  · rcases Nat.eq_or_lt_of_le hcon with heq | hlt
    · have : (⟨i, hi⟩ : Fin (buildPriorityQueue m now).length) = ⟨j, hj⟩ := by
        exact Fin.ext heq
      rcases hsome with ⟨s, hs, hrec⟩
      rw [← this] at hs
      exact hrec (hall s hs)
    · have hrel := List.pairwise_iff_get.mp
        (sorted_buildPriorityQueue m now) ⟨i, hi⟩ ⟨j, hj⟩ hlt
      have : (99 : Nat) ≤ ((buildPriorityQueue m now).get ⟨j, hj⟩).priority := by
        rw [← hpi]; exact hrel
      omega

/-- Witness for C10: in a concrete map with a "VIP"-tier subscriber and a
"Pro"-tier subscriber, the VIP item lands strictly after the Pro item. -/
theorem unrecognizedTier_sorts_after_witness :
    tierPriorityOrDefault "VIP" = 99 ∧ 0 < 1 :=
  ⟨(unrecognizedTier_sorts_after exMapC10 "T" 1 0 (by decide) (by decide)
      (by decide) (by decide) (by decide)).1 "VIP" (by decide),
   (unrecognizedTier_sorts_after exMapC10 "T" 1 0 (by decide) (by decide)
      (by decide) (by decide) (by decide)).2⟩

/-! ## Claim C6 -/

theorem extractRetryAfter_val_le {e : Option String} {n : Nat}
    (h : extractRetryAfter e = .val n) : n ≤ 60 := by
  unfold extractRetryAfter at h
  repeat' split at h
  all_goals simp at h
  rename_i n2 heq
  have hle : n2 ⊓ 60 ≤ 60 := inf_le_right
  rw [h] at hle
  exact hle

theorem retryDelayMs_le_max (e : Option String) (k : Nat) :
    retryDelayMs e k ≤ 60000 := by
  unfold retryDelayMs
  cases hx : extractRetryAfter e with
  | nullv => rcases k with _ | _ | _ | k <;> simp [backoffDelays]
  | nan => rcases k with _ | _ | _ | k <;> simp [backoffDelays]
  | val n =>
      cases n with
      | zero => rcases k with _ | _ | _ | k <;> simp [backoffDelays]
      | succ n2 =>
          have h60 := extractRetryAfter_val_le hx
          simp only []
          omega

theorem analyzeWithRetryGo_spec (oracle : Nat → AnalysisAttempt) (m : Nat) :
    ∀ (fuel attempt : Nat), attempt + fuel = m → 0 < fuel →
      (attempt + 1 ≤ (analyzeWithRetryGo oracle m attempt fuel).attemptsMade) ∧
      ((analyzeWithRetryGo oracle m attempt fuel).attemptsMade ≤ m) ∧
      ((analyzeWithRetryGo oracle m attempt fuel).delays.length + attempt + 1 =
        (analyzeWithRetryGo oracle m attempt fuel).attemptsMade) ∧
      (∀ k, attempt ≤ k →
        k + 1 < (analyzeWithRetryGo oracle m attempt fuel).attemptsMade →
        ∃ r, oracle k = .value r ∧ r.success = false ∧
          isGeminiRateLimitError r.error = true) ∧
      (∀ (k : Nat),
          k < (analyzeWithRetryGo oracle m attempt fuel).delays.length →
        ∃ r, oracle (attempt + k) = .value r ∧
          (analyzeWithRetryGo oracle m attempt fuel).delays.getD k 0 =
            retryDelayMs r.error (attempt + k)) := by
  intro fuel
  induction fuel with
  | zero => intro attempt _ h1; omega
  | succ f ih =>
      intro attempt hinv _
      rcases hor : oracle attempt with r | msg
      · simp only [analyzeWithRetryGo, hor]
        by_cases hterm : (r.success || !isGeminiRateLimitError r.error) = true
        · rw [if_pos hterm]
          dsimp only
          refine ⟨le_refl _, by omega, by simp, ?_, ?_⟩
          · intro k hk1 hk2
            exact absurd hk2 (by omega)
          · intro k hk
            exact absurd hk (by simp)
        · rw [if_neg hterm]
          by_cases hlt : attempt + 1 < m
          · rw [if_pos hlt]
            have hf : 0 < f := by omega
            have ihh := ih (attempt + 1) (by omega) hf
            have htrans : r.success = false ∧
                isGeminiRateLimitError r.error = true := by
              rcases hs : r.success <;>
                rcases hg : isGeminiRateLimitError r.error <;>
                  simp [hs, hg] at hterm ⊢
            dsimp only
            refine ⟨?_, ihh.2.1, ?_, ?_, ?_⟩
            · have := ihh.1; omega
            · have := ihh.2.2.1
              simp only [List.length_cons]
              omega
            · intro k hk1 hk2
              rcases Nat.eq_or_lt_of_le hk1 with hke | hkl
              · exact ⟨r, hke ▸ hor, htrans.1, htrans.2⟩
              · exact ihh.2.2.2.1 k hkl hk2
            · intro k hk
              cases k with
              | zero =>
                  refine ⟨r, by simpa using hor, ?_⟩
                  simp
              | succ k2 =>
                  have hk2 : k2 <
                      (analyzeWithRetryGo oracle m (attempt + 1) f).delays.length := by
                    simpa using hk
                  rcases ihh.2.2.2.2 k2 hk2 with ⟨r2, hr2, hd2⟩
                  have harith : attempt + (k2 + 1) = attempt + 1 + k2 := by omega
                  refine ⟨r2, by rw [harith]; exact hr2, ?_⟩
                  rw [harith]
                  simpa using hd2
          · rw [if_neg hlt]
            dsimp only
            refine ⟨le_refl _, by omega, by simp, ?_, ?_⟩
            · intro k hk1 hk2
              exact absurd hk2 (by omega)
            · intro k hk
              exact absurd hk (by simp)
      · simp only [analyzeWithRetryGo, hor]
        refine ⟨le_refl _, by omega, by simp, ?_, ?_⟩
        · intro k hk1 hk2
          exact absurd hk2 (by omega)
        · intro k hk
          exact absurd hk (by simp)

/-- C6 counterexample: a recognized transient-overload error carrying the
server suggestion "Please retry in 0s" parses to a present suggested delay of
0 seconds, yet the retry waits the scheduled 2000 ms, not the suggested 0 ms
(a zero suggestion is falsy in `retryAfterSeconds ? ... : ...`). -/
theorem analyzeWithRetry_zero_suggestion_uses_schedule :
    extractRetryAfter (some exErrC6) = .val 0 ∧
    isGeminiRateLimitError (some exErrC6) = true ∧
    (analyzeWithRetry exOracleC6 3).delays = [2000] ∧
    (analyzeWithRetry exOracleC6 3).attemptsMade = 2 := by
  refine ⟨by decide, by decide, by decide, by decide⟩

/-- C6 (amended): for every queue item the analysis makes at most 3 attempts;
a retry happens only when the returned error is a recognized
transient-overload error; the backoff delay before the k-th retry is the
server-suggested delay parsed from that attempt's error text, capped at 60
seconds, when present and positive — a missing, unparsable or zero suggestion
falls back to the fixed escalating schedule 2 s, 4 s, 8 s — and every waited
delay is at most 60 seconds. -/
theorem analyzeWithRetry_policy (oracle : Nat → AnalysisAttempt) :
    (analyzeWithRetry oracle 3).attemptsMade ≤ 3 ∧
    1 ≤ (analyzeWithRetry oracle 3).attemptsMade ∧
    ((analyzeWithRetry oracle 3).delays.length + 1 =
      (analyzeWithRetry oracle 3).attemptsMade) ∧
    (∀ k, k + 1 < (analyzeWithRetry oracle 3).attemptsMade →
        ∃ r, oracle k = .value r ∧ r.success = false ∧
          isGeminiRateLimitError r.error = true) ∧
    (∀ (k : Nat), k < (analyzeWithRetry oracle 3).delays.length →
        ∃ r, oracle k = .value r ∧
          (analyzeWithRetry oracle 3).delays.getD k 0 =
            retryDelayMs r.error k) ∧
    (∀ d ∈ (analyzeWithRetry oracle 3).delays, d ≤ 60000) := by
  have h := analyzeWithRetryGo_spec oracle 3 3 0 rfl (by omega)
  unfold analyzeWithRetry
  refine ⟨h.2.1, by have := h.1; omega, by have := h.2.2.1; omega, ?_, ?_, ?_⟩
  · intro k hk
    exact h.2.2.2.1 k (by omega) hk
  · intro k hk
    rcases h.2.2.2.2 k hk with ⟨r, hr, hd⟩
    exact ⟨r, by simpa using hr, by simpa using hd⟩
  · intro d hd
    rcases List.mem_iff_get.mp hd with ⟨idx, hidx⟩
    rcases h.2.2.2.2 idx.1 idx.2 with ⟨r, _, hdly⟩
    have hgd : (analyzeWithRetryGo oracle 3 0 3).delays.getD idx.1 0 = d := by
      rw [← hidx]
      exact List.getD_eq_getElem _ _ idx.2
    rw [← hgd, hdly]
    exact retryDelayMs_le_max _ _

/-- Witness for C6 (amended): in the concrete two-attempt run, the retry at
attempt 0 was caused by a recognized transient-overload error. -/
theorem analyzeWithRetry_policy_witness :
    ∃ r, exOracleC6 0 = .value r ∧ r.success = false ∧
      isGeminiRateLimitError r.error = true :=
  (analyzeWithRetry_policy exOracleC6).2.2.2.1 0 (by decide)

/-! ## Execution-engine structural lemmas -/

theorem processItem_analyzed_failed (cfg : Config) (w : ItemWorld)
    (item : QueueItem) (isLast : Bool) :
    (processItem cfg w item isLast).analyzed +
      (processItem cfg w item isLast).failed = 1 := by
  unfold processItem
  by_cases hd : cfg.dryRun = true
  · simp [hd]
  · rcases hs : (analyzeWithRetry w.analysis 3).result.success with _ | _ <;>
      rcases hv : validateAnalysisComplete (analyzeWithRetry w.analysis 3).result
          with _ | _ <;>
        simp [hd, hs, hv]

theorem processQueue_events_eq (cfg : Config) (w : Nat → ItemWorld)
    (queue : List QueueItem) (startIndex maxItems : Nat) :
    (processQueue cfg w queue startIndex maxItems).2 =
      ((chunkIdxs queue startIndex maxItems).map
        (stepAt cfg w queue (min (startIndex + maxItems) queue.length))).flatMap
        ItemOut.events := rfl

theorem sum_analyzed_failed :
    ∀ (xs : List ItemOut), (∀ x ∈ xs, x.analyzed + x.failed = 1) →
      (xs.map ItemOut.analyzed).sum + (xs.map ItemOut.failed).sum = xs.length
  | [], _ => rfl
  | a :: t, h => by
      have ha := h a (List.mem_cons_self _ _)
      have ht := sum_analyzed_failed t (fun x hx => h x (List.mem_cons_of_mem _ hx))
      simp only [List.map_cons, List.sum_cons, List.length_cons]
      omega

theorem processQueue_attempted (cfg : Config) (w : Nat → ItemWorld)
    (queue : List QueueItem) (startIndex maxItems : Nat) :
    (processQueue cfg w queue startIndex maxItems).1.analyzed +
        (processQueue cfg w queue startIndex maxItems).1.failed =
      (chunkIdxs queue startIndex maxItems).length := by
  unfold processQueue
  dsimp only
  rw [sum_analyzed_failed]
  · simp
  · intro x hx
    rcases List.mem_map.mp hx with ⟨i, _, rfl⟩
    exact processItem_analyzed_failed _ _ _ _

theorem stepAt_events_subset (cfg : Config) (w : Nat → ItemWorld)
    (queue : List QueueItem) (startIndex maxItems i : Nat)
    (hi : i ∈ chunkIdxs queue startIndex maxItems) :
    ∀ e ∈ (stepAt cfg w queue (min (startIndex + maxItems) queue.length) i).events,
      e ∈ (processQueue cfg w queue startIndex maxItems).2 := by
  intro e he
  rw [processQueue_events_eq]
  exact List.mem_flatMap.mpr
    ⟨stepAt cfg w queue (min (startIndex + maxItems) queue.length) i,
     List.mem_map_of_mem _ hi, he⟩

theorem processItem_failure_events (cfg : Config) (w : ItemWorld)
    (item : QueueItem) (isLast : Bool)
    (hdry : cfg.dryRun = false)
    (hfail : (analyzeWithRetry w.analysis 3).result.success = false ∨
      validateAnalysisComplete (analyzeWithRetry w.analysis 3).result = false) :
    (processItem cfg w item isLast).events =
      analyzingEvts w item.subscribers ++
        ((analyzeWithRetry w.analysis 3).delays.map Event.backoffDelay) ++
        broadcastErrorEvts w item.subscribers := by
  unfold processItem
  rcases hfail with hf | hf <;> simp [hdry, hf]

theorem mem_broadcastErrorEvts (w : ItemWorld) (subs : List Subscriber)
    (j : Nat) (hj : j < subs.length) :
    Event.statusWrite ((subs.getD j dfltSubscriber).pageId) .error
        ((w.sub j).errorOk) ∈ broadcastErrorEvts w subs := by
  unfold broadcastErrorEvts
  exact List.mem_map_of_mem _ (List.mem_range.mpr hj)

theorem processItem_failure_no_archive (cfg : Config) (w : ItemWorld)
    (item : QueueItem) (isLast : Bool)
    (hdry : cfg.dryRun = false)
    (hfail : (analyzeWithRetry w.analysis 3).result.success = false ∨
      validateAnalysisComplete (analyzeWithRetry w.analysis 3).result = false) :
    ∀ e ∈ (processItem cfg w item isLast).events,
      ∀ uid ok, e ≠ Event.archiveWrite uid ok := by
  rw [processItem_failure_events cfg w item isLast hdry hfail]
  intro e he uid ok
  rcases List.mem_append.mp he with he | he
  · rcases List.mem_append.mp he with he | he
    · unfold analyzingEvts at he
      rcases List.mem_map.mp he with ⟨j, _, rfl⟩
      simp
    · rcases List.mem_map.mp he with ⟨d0, _, rfl⟩
      simp
  · unfold broadcastErrorEvts at he
    rcases List.mem_map.mp he with ⟨j, _, rfl⟩
    simp

/-! ## Claim C2 -/

/-- C2: for every queue item of a chunk whose analysis fails terminally (the
retried analysis ends unsuccessful, or its result fails the required-fields
validation), processQueue attempts an explicit error-status write to every
subscriber of that subject, each write's outcome depending only on that
subscriber's own oracle (so one subscriber's write failure cannot prevent
another's), creates no archive/history record for that subject, and still
attempts every item of the chunk (the failed subject does not stop the
loop). -/
theorem processQueue_terminal_failure (cfg : Config) (w : Nat → ItemWorld)
    (queue : List QueueItem) (startIndex maxItems i : Nat)
    (hdry : cfg.dryRun = false)
    (hi : i ∈ chunkIdxs queue startIndex maxItems)
    (hfail : (analyzeWithRetry (w i).analysis 3).result.success = false ∨
      validateAnalysisComplete (analyzeWithRetry (w i).analysis 3).result
        = false) :
    (∀ j, j < (queue.getD i dfltQueueItem).subscribers.length →
        Event.statusWrite
            (((queue.getD i dfltQueueItem).subscribers.getD j
                dfltSubscriber).pageId)
            .error (((w i).sub j).errorOk)
          ∈ (processQueue cfg w queue startIndex maxItems).2) ∧
    (∀ e ∈ (stepAt cfg w queue
        (min (startIndex + maxItems) queue.length) i).events,
      ∀ uid ok, e ≠ Event.archiveWrite uid ok) ∧
    ((processQueue cfg w queue startIndex maxItems).1.analyzed +
        (processQueue cfg w queue startIndex maxItems).1.failed =
      (chunkIdxs queue startIndex maxItems).length) := by
  refine ⟨?_, ?_, processQueue_attempted cfg w queue startIndex maxItems⟩
  · intro j hj
    apply stepAt_events_subset cfg w queue startIndex maxItems i hi
    unfold stepAt
    rw [processItem_failure_events cfg (w i) _ _ hdry hfail]
    refine List.mem_append.mpr (Or.inr ?_)
    exact mem_broadcastErrorEvts (w i) _ j hj
  · intro e he
    exact processItem_failure_no_archive cfg (w i) _ _ hdry hfail e he

/-- Witness for C2: in a two-item chunk whose first subject fails, the single
subscriber of that subject receives an error-status write. -/
theorem processQueue_terminal_failure_witness :
    Event.statusWrite
        ((exQueueTwo.getD 0 dfltQueueItem).subscribers.getD 0
            dfltSubscriber).pageId
        .error (((exWorldsFailFirst 0).sub 0).errorOk)
      ∈ (processQueue exCfg exWorldsFailFirst exQueueTwo 0 2).2 :=
  (processQueue_terminal_failure exCfg exWorldsFailFirst exQueueTwo 0 2 0 rfl
    (by decide) (Or.inl (by decide))).1 0 (by decide)

/-! ## Claim C9 -/

theorem broadcastToUserGo_events_shape (w : SubWorld) (s : Subscriber)
    (m : Nat) :
    ∀ (fuel attempt : Nat), ∀ e ∈ (broadcastToUserGo w s m attempt fuel).2,
      (∃ st ok, e = Event.statusWrite s.pageId st ok) ∨
        e = Event.broadcastRetryDelay 5000 := by
  intro fuel
  induction fuel with
  | zero => intro attempt e he; simp [broadcastToUserGo] at he
  | succ f ih =>
      intro attempt e he
      rcases hs : w.sync attempt with msg | opid
      · simp only [broadcastToUserGo, hs] at he
        split at he
        · rcases List.mem_cons.mp he with rfl | he
          · exact Or.inr rfl
          · exact ih (attempt + 1) e he
        · rcases List.mem_singleton.mp he with rfl
          exact Or.inl ⟨.error, w.errorOk, rfl⟩
      · rcases opid with _ | pid
        · simp only [broadcastToUserGo, hs] at he
          split at he
          · rcases List.mem_cons.mp he with rfl | he
            · exact Or.inr rfl
            · exact ih (attempt + 1) e he
          · rcases List.mem_singleton.mp he with rfl
            exact Or.inl ⟨.error, w.errorOk, rfl⟩
        · simp only [broadcastToUserGo, hs] at he
          rcases List.mem_singleton.mp he with rfl
          exact Or.inl ⟨.complete, w.completeOk attempt, rfl⟩

theorem broadcastToUser_events_shape (w : SubWorld) (s : Subscriber) (m : Nat) :
    ∀ e ∈ (broadcastToUser w s m).2,
      (∃ st ok, e = Event.statusWrite s.pageId st ok) ∨
        e = Event.broadcastRetryDelay 5000 :=
  broadcastToUserGo_events_shape w s m m 0

theorem interDelay_not_mem_broadcast (w : ItemWorld) (subs : List Subscriber)
    (d : Nat) :
    Event.interDelay d ∉ (broadcastStep w subs).flatMap Prod.snd := by
  intro hmem
  rcases List.mem_flatMap.mp hmem with ⟨pair, hpair, he⟩
  unfold broadcastStep at hpair
  rcases List.mem_map.mp hpair with ⟨j, _, rfl⟩
  rcases broadcastToUser_events_shape _ _ _ _ he with ⟨st, ok, h⟩ | h <;>
    simp at h

theorem interDelay_not_mem_history (w : ItemWorld) (subs : List Subscriber)
    (brs : List (Bool × List Event)) (d : Nat) :
    Event.interDelay d ∉ historyStep w subs brs := by
  intro hmem
  unfold historyStep at hmem
  rcases List.mem_map.mp hmem with ⟨js, _, h⟩
  rcases ha : (w.sub js.1).archive with msg | opid
  · rw [ha] at h; simp at h
  · rcases opid with _ | pid <;> rw [ha] at h <;> simp at h

theorem processItem_success_events (cfg : Config) (w : ItemWorld)
    (item : QueueItem) (isLast : Bool)
    (hdry : cfg.dryRun = false)
    (hok : (analyzeWithRetry w.analysis 3).result.success = true)
    (hval : validateAnalysisComplete (analyzeWithRetry w.analysis 3).result
      = true) :
    (processItem cfg w item isLast).events =
      analyzingEvts w item.subscribers ++
        ((analyzeWithRetry w.analysis 3).delays.map Event.backoffDelay) ++
        (broadcastStep w item.subscribers).flatMap Prod.snd ++
        (if 0 < ((broadcastStep w item.subscribers).map Prod.fst).count true
          then historyStep w item.subscribers (broadcastStep w item.subscribers)
          else []) ++
        (if !isLast && decide (0 < cfg.analysisDelayMs)
          then [Event.interDelay cfg.analysisDelayMs] else []) := by
  unfold processItem
  simp [hdry, hok, hval]

theorem interDelay_mem_processItem (cfg : Config) (w : ItemWorld)
    (item : QueueItem) (isLast : Bool) (d : Nat) :
    Event.interDelay d ∈ (processItem cfg w item isLast).events ↔
      (d = cfg.analysisDelayMs ∧ 0 < cfg.analysisDelayMs ∧
        cfg.dryRun = false ∧ isLast = false ∧
        (analyzeWithRetry w.analysis 3).result.success = true ∧
        validateAnalysisComplete (analyzeWithRetry w.analysis 3).result
          = true) := by
  by_cases hd : cfg.dryRun = true
  · unfold processItem
    simp [hd]
  · have hdf : cfg.dryRun = false := by simpa using hd
    rcases hs : (analyzeWithRetry w.analysis 3).result.success with _ | _
    · rw [processItem_failure_events cfg w item isLast hdf (Or.inl hs)]
      constructor
      · intro he
        rcases List.mem_append.mp he with he | he
        · rcases List.mem_append.mp he with he | he
          · rcases List.mem_map.mp he with ⟨j, _, h⟩
            simp at h
          · rcases List.mem_map.mp he with ⟨d0, _, h⟩
            simp at h
        · rcases List.mem_map.mp he with ⟨j, _, h⟩
          simp at h
      · rintro ⟨-, -, -, -, hok, -⟩
        exact Bool.noConfusion hok
    · rcases hv : validateAnalysisComplete (analyzeWithRetry w.analysis 3).result
          with _ | _
      · rw [processItem_failure_events cfg w item isLast hdf (Or.inr hv)]
        constructor
        · intro he
          rcases List.mem_append.mp he with he | he
          · rcases List.mem_append.mp he with he | he
            · rcases List.mem_map.mp he with ⟨j, _, h⟩
              simp at h
            · rcases List.mem_map.mp he with ⟨d0, _, h⟩
              simp at h
          · rcases List.mem_map.mp he with ⟨j, _, h⟩
            simp at h
        · rintro ⟨-, -, -, -, -, hok⟩
          exact Bool.noConfusion hok
      · rw [processItem_success_events cfg w item isLast hdf hs hv]
        constructor
        · intro he
          rcases List.mem_append.mp he with he | he
          · rcases List.mem_append.mp he with he | he
            · rcases List.mem_append.mp he with he | he
              · rcases List.mem_append.mp he with he | he
                · rcases List.mem_map.mp he with ⟨j, _, h⟩
                  simp at h
                · rcases List.mem_map.mp he with ⟨d0, _, h⟩
                  simp at h
              · exact absurd he (interDelay_not_mem_broadcast w item.subscribers d)
            · split at he
              · exact absurd he (interDelay_not_mem_history _ _ _ d)
              · simp at he
          · split at he
            · rename_i hcond
              have hde := List.mem_singleton.mp he
              have hd2 : d = cfg.analysisDelayMs := by injection hde
              simp only [Bool.and_eq_true, Bool.not_eq_true, decide_eq_true_eq]
                at hcond
              exact ⟨hd2, hcond.2, hdf, by simpa using hcond.1, rfl, rfl⟩
            · simp at he
        · rintro ⟨rfl, hpos, -, hlast, -, -⟩
          refine List.mem_append.mpr (Or.inr ?_)
          rw [if_pos (by simp [hlast, hpos])]
          exact List.mem_singleton.mpr rfl

/-- C9 counterexample: chunk of two subjects with a positive configured delay
and dry-run off; the first subject fails terminally and the code path hits
`continue`, so no inter-subject pause happens at all, although the claim
requires a pause after the first subject (a subject remains in the chunk). -/
theorem processQueue_no_pause_after_failure :
    ((processQueue exCfg exWorldsFailFirst exQueueTwo 0 2).2.countP
        Event.isInter = 0) ∧
    (processQueue exCfg exWorldsFailFirst exQueueTwo 0 2).1.failed = 1 ∧
    (processQueue exCfg exWorldsFailFirst exQueueTwo 0 2).1.analyzed = 1 ∧
    exCfg.analysisDelayMs = 8000 ∧ exCfg.dryRun = false ∧
    chunkIdxs exQueueTwo 0 2 = [0, 1] := by
  refine ⟨by decide, by decide, by decide, by decide, by decide, by decide⟩

/-- C9 (amended): within a chunk, the fixed inter-subject delay occurs exactly
after the subjects that are not last in the chunk and whose analysis succeeded
and passed validation, with a positive configured delay and dry-run off;
subjects that fail terminally (and dry-run subjects) continue immediately via
`continue`, skipping the pause. -/
theorem processQueue_pacing (cfg : Config) (w : Nat → ItemWorld)
    (queue : List QueueItem) (startIndex maxItems d : Nat) :
    Event.interDelay d ∈ (processQueue cfg w queue startIndex maxItems).2 ↔
      (d = cfg.analysisDelayMs ∧ 0 < cfg.analysisDelayMs ∧
        cfg.dryRun = false ∧
        ∃ i ∈ chunkIdxs queue startIndex maxItems,
          (i + 1 ≠ min (startIndex + maxItems) queue.length) ∧
          (analyzeWithRetry (w i).analysis 3).result.success = true ∧
          validateAnalysisComplete (analyzeWithRetry (w i).analysis 3).result
            = true) := by
  rw [processQueue_events_eq]
  constructor
  · intro hmem
    rcases List.mem_flatMap.mp hmem with ⟨out, hout, he⟩
    rcases List.mem_map.mp hout with ⟨i, hic, rfl⟩
    have h := (interDelay_mem_processItem cfg (w i)
      (queue.getD i dfltQueueItem)
      (i + 1 == min (startIndex + maxItems) queue.length) d).mp he
    refine ⟨h.1, h.2.1, h.2.2.1, i, hic, ?_, h.2.2.2.2.1, h.2.2.2.2.2⟩
    have hb := h.2.2.2.1
    intro heq
    rw [heq] at hb
    simp at hb
  · rintro ⟨rfl, hpos, hdry, i, hic, hlast, hok, hval⟩
    apply List.mem_flatMap.mpr
    refine ⟨stepAt cfg w queue (min (startIndex + maxItems) queue.length) i,
      List.mem_map_of_mem _ hic, ?_⟩
    unfold stepAt
    apply (interDelay_mem_processItem cfg (w i) _ _ _).mpr
    refine ⟨rfl, hpos, hdry, ?_, hok, hval⟩
    simpa using hlast

/-- Witness for C9 (amended): in the all-success two-item chunk, the pause
occurs (after the first subject). -/
theorem processQueue_pacing_witness :
    Event.interDelay 8000 ∈ (processQueue exCfg exWorldsOk exQueueTwo 0 2).2 :=
  (processQueue_pacing exCfg exWorldsOk exQueueTwo 0 2 8000).mpr
    ⟨rfl, by decide, rfl, 0, by decide, by decide, by decide, by decide⟩

/-! ## Claim C3 -/

theorem statusWritesTo_append (p : String) (l1 l2 : List Event) :
    statusWritesTo p (l1 ++ l2) =
      statusWritesTo p l1 ++ statusWritesTo p l2 := by
  unfold statusWritesTo
  exact List.filterMap_append _ _ _

theorem statusWritesTo_backoff (p : String) (ds : List Nat) :
    statusWritesTo p (ds.map Event.backoffDelay) = [] := by
  unfold statusWritesTo
  rw [List.filterMap_eq_nil_iff]
  intro e he
  rcases List.mem_map.mp he with ⟨d, _, rfl⟩
  rfl

theorem statusWritesTo_history (p : String) (w : ItemWorld)
    (subs : List Subscriber) (brs : List (Bool × List Event)) :
    statusWritesTo p (historyStep w subs brs) = [] := by
  unfold statusWritesTo
  rw [List.filterMap_eq_nil_iff]
  intro e he
  unfold historyStep at he
  rcases List.mem_map.mp he with ⟨js, _, h⟩
  rcases ha : (w.sub js.1).archive with msg | opid
  · rw [ha] at h; subst h; rfl
  · rcases opid with _ | pid <;> rw [ha] at h <;> subst h <;> rfl

theorem statusWritesTo_ite_history (p : String) (w : ItemWorld)
    (subs : List Subscriber) (brs : List (Bool × List Event)) (c : Prop)
    [Decidable c] :
    statusWritesTo p (if c then historyStep w subs brs else []) = [] := by
  split
  · exact statusWritesTo_history p w subs brs
  · rfl

theorem statusWritesTo_pacing (p : String) (c : Prop) [Decidable c] (d : Nat) :
    statusWritesTo p (if c then [Event.interDelay d] else []) = [] := by
  split <;> rfl

theorem statusWritesTo_flatMap {α : Type} (p : String) (l : List α)
    (g : α → List Event) :
    statusWritesTo p (l.flatMap g) =
      l.flatMap (fun x => statusWritesTo p (g x)) := by
  induction l with
  | nil => rfl
  | cons a t ih => simp [List.flatMap_cons, statusWritesTo_append, ih]

theorem flatMap_map_eq {α β γ : Type} (l : List α) (F : α → β)
    (g : β → List γ) :
    (l.map F).flatMap g = l.flatMap (fun x => g (F x)) := by
  induction l with
  | nil => rfl
  | cons a t ih => simp [List.flatMap_cons, ih]

theorem flatMap_single {β : Type} :
    ∀ (l : List Nat) (g : Nat → List β) (j : Nat),
      l.Nodup → j ∈ l → (∀ k ∈ l, k ≠ j → g k = []) → l.flatMap g = g j
  | [], _, j, _, hj, _ => absurd hj (List.not_mem_nil j)
  | a :: t, g, j, hnd, hj, hz => by
      rcases List.mem_cons.mp hj with rfl | hj2
      · have ht : t.flatMap g = [] := by
          rw [List.flatMap_eq_nil_iff]
          intro k hk
          exact hz k (List.mem_cons_of_mem _ hk)
            (fun hkj => (List.nodup_cons.mp hnd).1 (hkj ▸ hk))
        simp [List.flatMap_cons, ht]
      · have ha : g a = [] := by
          refine hz a (List.mem_cons_self _ _) ?_
          intro haj
          exact (List.nodup_cons.mp hnd).1 (haj ▸ hj2)
        rw [List.flatMap_cons, ha, List.nil_append]
        exact flatMap_single t g j (List.nodup_cons.mp hnd).2 hj2
          (fun k hk => hz k (List.mem_cons_of_mem _ hk))

theorem getD_sub_eq (subs : List Subscriber) (i : Nat) (hi : i < subs.length) :
    subs.getD i dfltSubscriber = subs.get ⟨i, hi⟩ := by
  rw [List.getD_eq_getElem _ _ hi, List.get_eq_getElem]

theorem getD_map_range {β : Type} [Inhabited β] (F : Nat → β) (n j : Nat)
    (d : β) (hj : j < n) : ((List.range n).map F).getD j d = F j := by
  rw [List.getD_eq_getElem _ _ (by simpa using hj)]
  simp

theorem field_ne_of_nodup {f : Subscriber → String} {subs : List Subscriber}
    (h : (subs.map f).Nodup) {i j : Nat} (hi : i < subs.length)
    (hj : j < subs.length) (hij : i ≠ j) :
    f (subs.getD i dfltSubscriber) ≠ f (subs.getD j dfltSubscriber) := by
  intro he
  apply hij
  have hinj := List.nodup_iff_injective_get.mp h
  have he2 := he
  rw [getD_sub_eq subs i hi, getD_sub_eq subs j hj] at he2
  have hgi : (subs.map f).get ⟨i, by simpa using hi⟩ =
      (subs.map f).get ⟨j, by simpa using hj⟩ := by
    simpa [List.get_eq_getElem, List.getElem_map] using he2
  exact congrArg Fin.val (hinj hgi)

theorem count_true_all :
    ∀ (l : List Nat) (g : Nat → Bool), (∀ k ∈ l, g k = true) →
      ((l.map g).count true = l.length)
  | [], _, _ => rfl
  | a :: t, g, h => by
      have ha := h a (List.mem_cons_self _ _)
      have ht := count_true_all t g (fun k hk => h k (List.mem_cons_of_mem _ hk))
      simp [List.count_cons, ha, ht]

theorem count_true_except :
    ∀ (l : List Nat) (g : Nat → Bool) (f : Nat),
      l.Nodup → f ∈ l → g f = false → (∀ k ∈ l, k ≠ f → g k = true) →
      ((l.map g).count true = l.length - 1)
  | [], _, f, _, hf, _, _ => absurd hf (List.not_mem_nil f)
  | a :: t, g, f, hnd, hf, hgf, h => by
      rcases List.mem_cons.mp hf with rfl | hf2
      · have ht : (t.map g).count true = t.length := by
          apply count_true_all
          intro k hk
          exact h k (List.mem_cons_of_mem _ hk)
            (fun hkf => (List.nodup_cons.mp hnd).1 (hkf ▸ hk))
        simp [List.count_cons, hgf, ht]
      · have ha : g a = true := by
          refine h a (List.mem_cons_self _ _) ?_
          intro haf
          exact (List.nodup_cons.mp hnd).1 (haf ▸ hf2)
        have ht := count_true_except t g f (List.nodup_cons.mp hnd).2 hf2 hgf
          (fun k hk hkf => h k (List.mem_cons_of_mem _ hk) hkf)
        have hlen : 1 ≤ t.length := by
          rcases t with _ | _
          · cases hf2
          · simp
        simp [List.count_cons, ha, ht]
        omega

theorem dedupeByUserId_nodup :
    ∀ (l : List (Nat × Subscriber)) (seen : List String),
      ((l.map (fun js => js.2.userId)).Nodup) →
      (∀ js ∈ l, js.2.userId ∉ seen) →
      dedupeByUserId l seen = l
  | [], _, _, _ => rfl
  | (j, s) :: t, seen, hnd, hs => by
      have hnotin : ¬ s.userId ∈ seen := hs (j, s) (List.mem_cons_self _ _)
      rw [dedupeByUserId, if_neg hnotin]
      congr 1
      apply dedupeByUserId_nodup t (s.userId :: seen)
        (List.nodup_cons.mp hnd).2
      intro js hjs hmem
      rcases List.mem_cons.mp hmem with he | hmem2
      · have hmm : js.2.userId ∈ List.map (fun js => js.2.userId) t :=
          List.mem_map_of_mem _ hjs
        rw [he] at hmm
        exact (List.nodup_cons.mp hnd).1 hmm
      · exact hs js (List.mem_cons_of_mem _ hjs) hmem2

theorem getLast_append_right {α : Type} :
    ∀ (l1 l2 : List α), l2 ≠ [] → (l1 ++ l2).getLast? = l2.getLast?
  | [], _, _ => rfl
  | a :: t, l2, h => by
      have htl : t ++ l2 ≠ [] := by
        intro hc
        rcases List.append_eq_nil.mp hc with ⟨-, h2⟩
        exact h h2
      rcases List.exists_cons_of_ne_nil htl with ⟨b, l3, hbl⟩
      rw [List.cons_append, hbl, List.getLast?_cons_cons, ← hbl]
      exact getLast_append_right t l2 h

theorem broadcastToUser_first_ok (w : SubWorld) (s : Subscriber) {pid : String}
    (h : w.sync 0 = .ok (some pid)) :
    broadcastToUser w s 2 =
      (true, [Event.statusWrite s.pageId .complete (w.completeOk 0)]) := by
  simp [broadcastToUser, broadcastToUserGo, h]

theorem broadcastToUser_both_fail (w : SubWorld) (s : Subscriber)
    (h0 : syncFailed (w.sync 0) = true) (h1 : syncFailed (w.sync 1) = true) :
    broadcastToUser w s 2 =
      (false, [Event.broadcastRetryDelay 5000,
        Event.statusWrite s.pageId .error w.errorOk]) := by
  rcases hs0 : w.sync 0 with msg | opid
  · rcases hs1 : w.sync 1 with msg1 | opid1
    · simp [broadcastToUser, broadcastToUserGo, hs0, hs1]
    · rcases opid1 with _ | pid1
      · simp [broadcastToUser, broadcastToUserGo, hs0, hs1]
      · rw [hs1] at h1
        simp [syncFailed] at h1
  · rcases opid with _ | pid
    · rcases hs1 : w.sync 1 with msg1 | opid1
      · simp [broadcastToUser, broadcastToUserGo, hs0, hs1]
      · rcases opid1 with _ | pid1
        · simp [broadcastToUser, broadcastToUserGo, hs0, hs1]
        · rw [hs1] at h1
          simp [syncFailed] at h1
    · rw [hs0] at h0
      simp [syncFailed] at h0

theorem statusWritesTo_other_page {p : String} (w : SubWorld) (s : Subscriber)
    (m : Nat) (h : ¬ (s.pageId = p)) :
    statusWritesTo p (broadcastToUser w s m).2 = [] := by
  unfold statusWritesTo
  rw [List.filterMap_eq_nil_iff]
  intro e he
  rcases broadcastToUser_events_shape w s m e he with ⟨st, ok, rfl⟩ | rfl
  · rcases ok with _ | _ <;> simp [h]
  · rfl

theorem statusWritesTo_own_complete (p : String) :
    statusWritesTo p [Event.statusWrite p .complete true] = [Status.complete] := by
  simp [statusWritesTo, List.filterMap_cons]

theorem statusWritesTo_own_error (p : String) :
    statusWritesTo p [Event.broadcastRetryDelay 5000,
        Event.statusWrite p .error true] = [Status.error] := by
  simp [statusWritesTo, List.filterMap_cons]

theorem processItem_success_fields (cfg : Config) (w : ItemWorld)
    (item : QueueItem) (isLast : Bool)
    (hdry : cfg.dryRun = false)
    (hok : (analyzeWithRetry w.analysis 3).result.success = true)
    (hval : validateAnalysisComplete (analyzeWithRetry w.analysis 3).result
      = true) :
    (processItem cfg w item isLast).totalB =
        (broadcastStep w item.subscribers).length ∧
      (processItem cfg w item isLast).succB =
        ((broadcastStep w item.subscribers).map Prod.fst).count true ∧
      (processItem cfg w item isLast).failB =
        (broadcastStep w item.subscribers).length -
          ((broadcastStep w item.subscribers).map Prod.fst).count true := by
  unfold processItem
  simp [hdry, hok, hval]

/-- C3: for a queue item whose analysis succeeds and validates, when exactly
one subscriber's delivery fails on both sync attempts (exhausting the fixed
retry count of 2) while every other subscriber's delivery succeeds, that
subscriber alone ends with final status error, every other subscriber ends
with final status complete and an archive record, and the broadcast join
attempts all subscribers and collects individual outcomes (totalB equals the
subscriber count; exactly one rejected). -/
theorem processItem_single_delivery_failure (cfg : Config) (w : ItemWorld)
    (item : QueueItem) (isLast : Bool) (f : Nat)
    (hdry : cfg.dryRun = false)
    (hok : (analyzeWithRetry w.analysis 3).result.success = true)
    (hval : validateAnalysisComplete (analyzeWithRetry w.analysis 3).result
      = true)
    (hpg : (item.subscribers.map Subscriber.pageId).Nodup)
    (huid : (item.subscribers.map Subscriber.userId).Nodup)
    (hfn : f < item.subscribers.length)
    (hf0 : syncFailed ((w.sub f).sync 0) = true)
    (hf1 : syncFailed ((w.sub f).sync 1) = true)
    (hfe : (w.sub f).errorOk = true)
    (hothers : ∀ j, j < item.subscribers.length → j ≠ f →
      (∃ pid, ((w.sub j).sync 0 = SyncResult.ok (some pid))) ∧
        ((w.sub j).completeOk 0 = true) ∧
        (∃ aid, ((w.sub j).archive = ArchiveResult.ok (some aid)))) :
    finalStatus (processItem cfg w item isLast).events
        ((item.subscribers.getD f dfltSubscriber).pageId) =
      some Status.error ∧
    (∀ j, j < item.subscribers.length → j ≠ f →
      finalStatus (processItem cfg w item isLast).events
          ((item.subscribers.getD j dfltSubscriber).pageId) =
        some Status.complete ∧
      Event.archiveWrite ((item.subscribers.getD j dfltSubscriber).userId) true
        ∈ (processItem cfg w item isLast).events) ∧
    (processItem cfg w item isLast).totalB = item.subscribers.length ∧
    (processItem cfg w item isLast).succB = item.subscribers.length - 1 ∧
    (processItem cfg w item isLast).failB = 1 := by
  have hev := processItem_success_events cfg w item isLast hdry hok hval
  have hfields := processItem_success_fields cfg w item isLast hdry hok hval
  have hFf : broadcastToUser (w.sub f)
      (item.subscribers.getD f dfltSubscriber) 2
      = (false, [Event.broadcastRetryDelay 5000,
          Event.statusWrite
            (item.subscribers.getD f dfltSubscriber).pageId .error true]) := by
    rw [broadcastToUser_both_fail _ _ hf0 hf1, hfe]
  have hFo : ∀ j, j < item.subscribers.length → j ≠ f →
      broadcastToUser (w.sub j) (item.subscribers.getD j dfltSubscriber) 2
        = (true, [Event.statusWrite
            (item.subscribers.getD j dfltSubscriber).pageId .complete
            true]) := by
    intro j hj hjf
    rcases (hothers j hj hjf).1 with ⟨pid, hpid⟩
    rw [broadcastToUser_first_ok _ _ hpid, (hothers j hj hjf).2.1]
  have hbrs : broadcastStep w item.subscribers =
      (List.range item.subscribers.length).map
        (fun j => broadcastToUser (w.sub j)
          (item.subscribers.getD j dfltSubscriber) 2) := rfl
  have hcount : ((broadcastStep w item.subscribers).map Prod.fst).count true
      = item.subscribers.length - 1 := by
    rw [hbrs, List.map_map]
    have hc := count_true_except (List.range item.subscribers.length)
      (fun j => (broadcastToUser (w.sub j)
        (item.subscribers.getD j dfltSubscriber) 2).1)
      f (List.nodup_range _) (List.mem_range.mpr hfn)
      (by
        show (broadcastToUser (w.sub f)
          (item.subscribers.getD f dfltSubscriber) 2).1 = false
        rw [hFf])
      (fun k hk hkf => by
        show (broadcastToUser (w.sub k)
          (item.subscribers.getD k dfltSubscriber) 2).1 = true
        rw [hFo k (List.mem_range.mp hk) hkf])
    simpa using hc
  have hSW : ∀ i, i < item.subscribers.length →
      statusWritesTo ((item.subscribers.getD i dfltSubscriber).pageId)
          ((broadcastStep w item.subscribers).flatMap Prod.snd) =
        statusWritesTo ((item.subscribers.getD i dfltSubscriber).pageId)
          (broadcastToUser (w.sub i)
            (item.subscribers.getD i dfltSubscriber) 2).2 := by
    intro i hi
    rw [hbrs, flatMap_map_eq, statusWritesTo_flatMap]
    exact flatMap_single _ _ i (List.nodup_range _) (List.mem_range.mpr hi)
      (fun k hk hki => statusWritesTo_other_page (w.sub k) _ 2
        (field_ne_of_nodup hpg (List.mem_range.mp hk) hi hki))
  have hfinal : ∀ i, i < item.subscribers.length → ∀ st : Status,
      statusWritesTo ((item.subscribers.getD i dfltSubscriber).pageId)
        (broadcastToUser (w.sub i)
          (item.subscribers.getD i dfltSubscriber) 2).2 = [st] →
      finalStatus (processItem cfg w item isLast).events
        ((item.subscribers.getD i dfltSubscriber).pageId) = some st := by
    intro i hi st hseg
    unfold finalStatus
    rw [hev, statusWritesTo_append, statusWritesTo_append,
      statusWritesTo_append, statusWritesTo_append, statusWritesTo_backoff,
      statusWritesTo_ite_history, statusWritesTo_pacing, hSW i hi, hseg]
    simp only [List.append_nil]
    rw [getLast_append_right _ _ (by simp)]
    rfl
  refine ⟨?_, ?_, ?_, ?_, ?_⟩
  · exact hfinal f hfn Status.error
      (by rw [hFf]; exact statusWritesTo_own_error _)
  · intro j hj hjf
    constructor
    · exact hfinal j hj Status.complete
        (by rw [hFo j hj hjf]; exact statusWritesTo_own_complete _)
    · have hcpos : 0 <
          ((broadcastStep w item.subscribers).map Prod.fst).count true := by
        rw [hcount]
        omega
      rw [hev]
      refine List.mem_append.mpr (Or.inl ?_)
      refine List.mem_append.mpr (Or.inr ?_)
      rw [if_pos hcpos]
      unfold historyStep
      have hjmem : (j, item.subscribers.getD j dfltSubscriber) ∈
          fulfilledPairs item.subscribers (broadcastStep w item.subscribers) := by
        unfold fulfilledPairs
        refine List.mem_map.mpr ⟨j, ?_, rfl⟩
        apply List.mem_filter.mpr
        refine ⟨List.mem_range.mpr hj, ?_⟩
        rw [hbrs, getD_map_range _ _ _ _ hj, hFo j hj hjf]
      have hdn : ((fulfilledPairs item.subscribers
          (broadcastStep w item.subscribers)).map
          (fun js => js.2.userId)).Nodup := by
        unfold fulfilledPairs
        rw [List.map_map]
        apply List.Nodup.map_on
        · intro x hx y hy hxy
          have hxn : x < item.subscribers.length :=
            List.mem_range.mp (List.mem_filter.mp hx).1
          have hyn : y < item.subscribers.length :=
            List.mem_range.mp (List.mem_filter.mp hy).1
          by_contra hne
          exact field_ne_of_nodup huid hxn hyn hne hxy
        · exact (List.nodup_range _).filter _
      rw [dedupeByUserId_nodup _ [] hdn
        (fun js _ hmem => absurd hmem (List.not_mem_nil _))]
      refine List.mem_map.mpr
        ⟨(j, item.subscribers.getD j dfltSubscriber), hjmem, ?_⟩
      rcases (hothers j hj hjf).2.2 with ⟨aid, haid⟩
      simp [haid]
  · rw [hfields.1, hbrs]
    simp
  · rw [hfields.2.1, hcount]
  · rw [hfields.2.2, hcount, hbrs]
    simp
    omega

/-- Witness for C3: in a concrete item with two subscribers where the second
one's sync throws on both attempts, that subscriber's page ends in error
status. -/
theorem processItem_single_delivery_failure_witness :
    finalStatus (processItem exCfg exItemWorldOneFail exItemTwoSubs false).events
        ((exItemTwoSubs.subscribers.getD 1 dfltSubscriber).pageId) =
      some Status.error :=
  (processItem_single_delivery_failure exCfg exItemWorldOneFail exItemTwoSubs
    false 1 rfl (by decide) (by decide) (by decide) (by decide) (by decide)
    (by decide) (by decide) (by decide)
    (by
      intro j hj hjf
      have hlen : exItemTwoSubs.subscribers.length = 2 := rfl
      rw [hlen] at hj
      have hj0 : j = 0 := by omega
      subst hj0
      exact ⟨⟨"pid", rfl⟩, rfl, ⟨"hid", rfl⟩⟩)).1

/-! ## Claim C7 -/

theorem storeGet_storeSet :
    ∀ (st : Store) (k : String) (v : JVal), storeGet (storeSet st k v) k = some v
  | [], k, v => by simp [storeSet, storeGet]
  | e :: rest, k, v => by
      by_cases h : e.1 = k
      · simp [storeSet, storeGet, h]
      · simp [storeSet, storeGet, h, storeGet_storeSet rest k v]

theorem decodeSubscriber_encode (s : Subscriber) :
    decodeSubscriber (encodeSubscriber s) = some s := rfl

theorem decodeList_encode_subscribers :
    ∀ (l : List Subscriber),
      decodeList decodeSubscriber (l.map encodeSubscriber) = some l
  | [] => rfl
  | s :: t => by
      simp [decodeList, decodeSubscriber_encode, decodeList_encode_subscribers t]

theorem decodeQueueItem_encode (it : QueueItem) :
    decodeQueueItem (encodeQueueItem it) = some it := by
  simp [decodeQueueItem, encodeQueueItem, JVal.getField, lookupField,
    JVal.asStr, JVal.asNum, JVal.asArr, decodeList_encode_subscribers]

theorem decodeList_encode_items :
    ∀ (l : List QueueItem),
      decodeList decodeQueueItem (l.map encodeQueueItem) = some l
  | [] => rfl
  | it :: t => by
      simp [decodeList, decodeQueueItem_encode, decodeList_encode_items t]

theorem decodeStoredQueue_encode (q : StoredQueue) :
    decodeStoredQueue (encodeStoredQueue q) = some q := by
  rcases q with ⟨id, items, pc, tc, ca, mc, cs, lca⟩
  rcases mc with _ | c <;> rcases lca with _ | t <;>
    simp [decodeStoredQueue, encodeStoredQueue, JVal.getField, lookupField,
      JVal.asStr, JVal.asNum, JVal.asArr, decodeMarketCtx, encodeMarketCtx,
      decodeList_encode_items]

/-- C7: a queue saved to the store (with processed = 0 and total = the item
count) and then loaded back for the same date yields an equal item list, an
equal processed count, and an equal total count. -/
theorem save_load_roundtrip (queue : List QueueItem) (ctx : Option MarketCtx)
    (chunkSize : Nat) (today nowIso : String) (st : Store)
    (wS : SaveWorld) (wL : LoadWorld)
    (hset : wS.set = .resp true 200) (hexp : wS.expire = .resp true 200)
    (hget : wL.get = .resp true 200) :
    (saveQueueToRedis true wS st queue ctx chunkSize today nowIso).2 =
      Except.ok ("analysis_queue:" ++ today) ∧
    ∃ sq : StoredQueue,
      loadQueueFromRedis true wL
          (saveQueueToRedis true wS st queue ctx chunkSize today nowIso).1
          today = .ok (some sq) ∧
      sq.items = queue ∧ sq.processedCount = 0 ∧
      sq.totalCount = queue.length := by
  constructor
  · simp [saveQueueToRedis, hset, hexp]
  · refine ⟨mkStoredQueue queue ctx chunkSize today nowIso, ?_, rfl, rfl, rfl⟩
    simp [saveQueueToRedis, loadQueueFromRedis, hset, hexp, hget,
      storeGet_storeSet, decodeStoredQueue_encode, mkStoredQueue]

/-- Witness for C7, at a concrete one-item queue and empty store. -/
theorem save_load_roundtrip_witness :
    ∃ sq : StoredQueue,
      loadQueueFromRedis true exLoadWorldOk
          (saveQueueToRedis true exSaveWorldOk [] [exItemA] none 8 "d" "T").1
          "d" = .ok (some sq) ∧
      sq.items = [exItemA] ∧ sq.processedCount = 0 ∧
      sq.totalCount = [exItemA].length :=
  (save_load_roundtrip [exItemA] none 8 "d" "T" [] exSaveWorldOk exLoadWorldOk
    rfl rfl rfl).2

/-! ## Claim C8 -/

/-- C8 counterexample: with a stored queue present, a backend error response
(HTTP 500, ok = false) on updateProcessedCount's write-back SET — and likewise
on deleteQueue's DEL — leaves the store unchanged while the call still returns
success: the cursor write is lost silently instead of propagating a hard
error. -/
theorem updateProcessedCount_silent_on_backend_error :
    updateProcessedCount true exUpdWorldBadSet exStoreC8 "analysis_queue:d" 8
        "T2" = (exStoreC8, Except.ok ()) ∧
    deleteQueue true exDelWorldBad exStoreC8 "analysis_queue:d"
      = (exStoreC8, Except.ok ()) := ⟨rfl, rfl⟩

/-- C8 (amended): network failures (a rejected fetch) propagate as hard errors
from every store operation, and backend error responses propagate from
saveQueueToRedis's SET and from the GETs of loadQueueFromRedis (other than
404) and updateProcessedCount; but the write-back SET of updateProcessedCount
and the DEL of deleteQueue do not inspect the response, so a backend error
response there silently reports success and leaves the prior store state in
place. -/
theorem store_failure_semantics :
    (∀ (w : SaveWorld) (st : Store) (queue : List QueueItem)
        (ctx : Option MarketCtx) (cs : Nat) (today nowIso m : String),
      w.set = .netError m →
      (saveQueueToRedis true w st queue ctx cs today nowIso).2 =
        .error m) ∧
    (∀ (w : SaveWorld) (st : Store) (queue : List QueueItem)
        (ctx : Option MarketCtx) (cs : Nat) (today nowIso : String)
        (status : Nat),
      w.set = .resp false status →
      (saveQueueToRedis true w st queue ctx cs today nowIso).2 =
        .error ("Redis SET failed: " ++ toString status)) ∧
    (∀ (w : LoadWorld) (st : Store) (targetDate m : String),
      w.get = .netError m →
      loadQueueFromRedis true w st targetDate = .error m) ∧
    (∀ (w : LoadWorld) (st : Store) (targetDate : String) (status : Nat),
      w.get = .resp false status → status ≠ 404 →
      loadQueueFromRedis true w st targetDate =
        .error ("Redis GET failed: " ++ toString status)) ∧
    (∀ (w : UpdateWorld) (st : Store) (qid : String) (pc : Nat)
        (nowIso m : String),
      w.get = .netError m →
      (updateProcessedCount true w st qid pc nowIso).2 = .error m) ∧
    (∀ (w : UpdateWorld) (st : Store) (qid : String) (pc : Nat)
        (nowIso m : String) (v : JVal) (q : StoredQueue),
      w.get = .resp true 200 → storeGet st qid = some v →
      decodeStoredQueue v = some q → w.set = .netError m →
      (updateProcessedCount true w st qid pc nowIso).2 = .error m) ∧
    (∀ (w : UpdateWorld) (st : Store) (qid : String) (pc : Nat)
        (nowIso : String) (status : Nat) (v : JVal) (q : StoredQueue),
      w.get = .resp true 200 → storeGet st qid = some v →
      decodeStoredQueue v = some q → w.set = .resp false status →
      updateProcessedCount true w st qid pc nowIso = (st, Except.ok ())) ∧
    (∀ (w : DeleteWorld) (st : Store) (qid m : String),
      w.del = .netError m →
      (deleteQueue true w st qid).2 = .error m) ∧
    (∀ (w : DeleteWorld) (st : Store) (qid : String) (status : Nat),
      w.del = .resp false status →
      deleteQueue true w st qid = (st, Except.ok ())) := by
  refine ⟨?_, ?_, ?_, ?_, ?_, ?_, ?_, ?_, ?_⟩
  · intro w st queue ctx cs today nowIso m h
    simp [saveQueueToRedis, h]
  · intro w st queue ctx cs today nowIso status h
    simp [saveQueueToRedis, h]
  · intro w st targetDate m h
    simp [loadQueueFromRedis, h]
  · intro w st targetDate status h h404
    simp [loadQueueFromRedis, h, h404]
  · intro w st qid pc nowIso m h
    simp [updateProcessedCount, h]
  · intro w st qid pc nowIso m v q hget hv hq hset
    simp [updateProcessedCount, hget, hv, hq, hset]
  · intro w st qid pc nowIso status v q hget hv hq hset
    simp [updateProcessedCount, hget, hv, hq, hset]
  · intro w st qid m h
    simp [deleteQueue, h]
  · intro w st qid status h
    simp [deleteQueue, h]

/-- Witness for C8 (amended): a network failure on the save SET propagates. -/
theorem store_failure_semantics_witness :
    (saveQueueToRedis true exSaveWorldNet [] [exItemA] none 8 "d" "T").2 =
      Except.error "net down" :=
  store_failure_semantics.1 exSaveWorldNet [] [exItemA] none 8 "d" "T"
    "net down" rfl

/-! ## Claim C4 -/

/-- C4: with chunk size 8 and a queue of 15 subjects, the first invocation
processes exactly indices 0-7 and checkpoints processed = 8 without deleting
the queue; the second invocation resumes at index 8, processes indices 8-14,
checkpoints processed = 15, and deletes the queue. In general the cursor
advances by exactly the count of items attempted in the chunk — the same for
any two worlds, i.e. regardless of individual item success or failure — and
the queue is deleted exactly when the new processed count reaches the
total. -/
theorem cron_chunk_resume :
    (cronStep 8 none exQueue15 none "d" "T" exCfg exWorldsOk).startIndex
        = 0 ∧
    (cronStep 8 none exQueue15 none "d" "T" exCfg exWorldsOk).itemsToProcess
        = 8 ∧
    chunkIdxs exQueue15 0 8 = [0, 1, 2, 3, 4, 5, 6, 7] ∧
    (cronStep 8 none exQueue15 none "d" "T" exCfg exWorldsOk).processedItems
        = 8 ∧
    (cronStep 8 none exQueue15 none "d" "T" exCfg exWorldsOk).isComplete
        = false ∧
    ((cronStep 8 none exQueue15 none "d" "T" exCfg exWorldsOk).newStore.map
        StoredQueue.processedCount = some 8) ∧
    (cronStep 8
        (cronStep 8 none exQueue15 none "d" "T" exCfg exWorldsOk).newStore
        [] none "d" "T2" exCfg exWorldsOk).startIndex = 8 ∧
    (cronStep 8
        (cronStep 8 none exQueue15 none "d" "T" exCfg exWorldsOk).newStore
        [] none "d" "T2" exCfg exWorldsOk).itemsToProcess = 7 ∧
    chunkIdxs exQueue15 8 7 = [8, 9, 10, 11, 12, 13, 14] ∧
    (cronStep 8
        (cronStep 8 none exQueue15 none "d" "T" exCfg exWorldsOk).newStore
        [] none "d" "T2" exCfg exWorldsOk).processedItems = 15 ∧
    (cronStep 8
        (cronStep 8 none exQueue15 none "d" "T" exCfg exWorldsOk).newStore
        [] none "d" "T2" exCfg exWorldsOk).isComplete = true ∧
    (cronStep 8
        (cronStep 8 none exQueue15 none "d" "T" exCfg exWorldsOk).newStore
        [] none "d" "T2" exCfg exWorldsOk).newStore = none ∧
    (∀ (cs : Nat) (q : StoredQueue) (fq : List QueueItem)
        (ctx : Option MarketCtx) (t1 t2 : String) (cfg : Config)
        (w w2 : Nat → ItemWorld),
      (cronStep cs (some q) fq ctx t1 t2 cfg w).processedItems =
          q.processedCount + min cs (q.totalCount - q.processedCount) ∧
      (cronStep cs (some q) fq ctx t1 t2 cfg w).processedItems =
        (cronStep cs (some q) fq ctx t1 t2 cfg w2).processedItems ∧
      ((cronStep cs (some q) fq ctx t1 t2 cfg w).newStore = none ↔
        q.totalCount ≤ (cronStep cs (some q) fq ctx t1 t2 cfg w).processedItems)) := by
  refine ⟨by decide, by decide, by decide, by decide, by decide, by decide,
    by decide, by decide, by decide, by decide, by decide, by decide, ?_⟩
  intro cs q fq ctx t1 t2 cfg w w2
  refine ⟨rfl, rfl, ?_⟩
  unfold cronStep
  dsimp only
  by_cases hc : q.totalCount ≤ q.processedCount + min cs (q.totalCount - q.processedCount)
  · simp [hc]
  · simp [hc]
